import Mathlib

/-!
# LA32 wave generator (mt32emu, `LA32WaveGenerator.cpp`, non-accurate build)

A shallow embedding of the log-sample arithmetic, of the oscillator state machine and of the
voice pair, followed by the properties proved about them.

Conventions of the embedding.

* `Bit16u`, `Bit32u` values are natural numbers, `Bit16s` values and promoted `int` values are
  integers; every operation that can leave its machine type is wrapped explicitly
  (`u16`, `u32`, `wrap32`, `s16`).
* `x >> k` is written `x / 2 ^ k`, `x << k` is `x * 2 ^ k` (wrapped), `x & (2 ^ k - 1)` is
  `x % 2 ^ k` and `~x & (2 ^ k - 1)` is `2 ^ k - 1 - x % 2 ^ k`.
* A right shift of a negative `int` is the arithmetic shift, i.e. floor division.
* The lookup tables of `Tables::getInstance()` are not part of this translation unit; they are
  a parameter `T : Tables` of every function that reads them.
* `pcmWaveAddress` is a pointer: it is modelled as the view of memory from that pointer
  (`none` for `NULL`), a function from the index to the sample stored there.  Whether an index
  lies inside the table of `pcmWaveLength` entries is a separate statement.
-/

namespace MT32Emu

/-! ## Machine integers -/

/-- Truncation of an `int` to `Bit16u`. -/
def u16 (x : Int) : Nat := (x % 65536).toNat

/-- Truncation of a natural number to `Bit32u`. -/
def u32 (x : Nat) : Nat := x % 4294967296

/-- Truncation of an integer to `Bit32u` (used for unsigned subtraction). -/
def wrap32 (x : Int) : Nat := (x % 4294967296).toNat

/-- Truncation of an `int` to `Bit16s`. -/
def s16 (x : Int) : Int := (x + 32768) % 65536 - 32768

/-! ## Constants -/

def SINE_SEGMENT_RELATIVE_LENGTH : Nat := 262144        -- 1 << 18
def MIDDLE_CUTOFF_VALUE : Nat := 33554432               -- 128 << 18
def RESONANCE_DECAY_THRESHOLD_CUTOFF_VALUE : Nat := 37748736  -- 144 << 18
def MAX_CUTOFF_VALUE : Nat := 62914560                  -- 240 << 18

/-! ## Data model -/

/-- The sign of a log sample (`LogSample::POSITIVE`, `LogSample::NEGATIVE`). -/
inductive Sign where
  | POSITIVE
  | NEGATIVE
deriving DecidableEq, Repr

/-- A sample in the logarithmic domain: `logValue` is a `Bit16u`. -/
structure LogSample where
  logValue : Nat
  sign : Sign
deriving DecidableEq, Repr

def SILENCE : LogSample := { logValue := 65535, sign := Sign.POSITIVE }

/-- The tables read through `Tables::getInstance()`: `exp9` and `logsin9` (512 entries of
`Bit16u`) and `resAmpDecayFactor` (8 entries of `Bit8u`).  Their contents are defined outside
this translation unit, so they are a parameter. -/
structure Tables where
  exp9 : Nat → Nat
  logsin9 : Nat → Nat
  resAmpDecayFactor : Nat → Nat

/-- The six segments of the square wave cycle, in declaration order. -/
inductive Phase where
  | POSITIVE_RISING_SINE_SEGMENT
  | POSITIVE_LINEAR_SEGMENT
  | POSITIVE_FALLING_SINE_SEGMENT
  | NEGATIVE_FALLING_SINE_SEGMENT
  | NEGATIVE_LINEAR_SEGMENT
  | NEGATIVE_RISING_SINE_SEGMENT
deriving DecidableEq, Repr

/-- The integer value of a `Phase` enumerator. -/
def Phase.toNat : Phase → Nat
  | .POSITIVE_RISING_SINE_SEGMENT => 0
  | .POSITIVE_LINEAR_SEGMENT => 1
  | .POSITIVE_FALLING_SINE_SEGMENT => 2
  | .NEGATIVE_FALLING_SINE_SEGMENT => 3
  | .NEGATIVE_LINEAR_SEGMENT => 4
  | .NEGATIVE_RISING_SINE_SEGMENT => 5

/-- The four segments of the resonance sine, in declaration order. -/
inductive ResonancePhase where
  | POSITIVE_RISING_RESONANCE_SINE_SEGMENT
  | POSITIVE_FALLING_RESONANCE_SINE_SEGMENT
  | NEGATIVE_FALLING_RESONANCE_SINE_SEGMENT
  | NEGATIVE_RISING_RESONANCE_SINE_SEGMENT
deriving DecidableEq, Repr

/-- The integer value of a `ResonancePhase` enumerator. -/
def ResonancePhase.toNat : ResonancePhase → Nat
  | .POSITIVE_RISING_RESONANCE_SINE_SEGMENT => 0
  | .POSITIVE_FALLING_RESONANCE_SINE_SEGMENT => 1
  | .NEGATIVE_FALLING_RESONANCE_SINE_SEGMENT => 2
  | .NEGATIVE_RISING_RESONANCE_SINE_SEGMENT => 3

/-- The enumerator stored by `*(int*)&resonancePhase = v` for `v` in `0..3`. -/
def ResonancePhase.fromValue (v : Nat) : ResonancePhase :=
  if v = 0 then .POSITIVE_RISING_RESONANCE_SINE_SEGMENT
  else if v = 1 then .POSITIVE_FALLING_RESONANCE_SINE_SEGMENT
  else if v = 2 then .NEGATIVE_FALLING_RESONANCE_SINE_SEGMENT
  else .NEGATIVE_RISING_RESONANCE_SINE_SEGMENT

/-- The state of one oscillator (`class LA32WaveGenerator`). -/
structure LA32WaveGenerator where
  active : Bool
  amp : Nat
  pitch : Nat
  cutoffVal : Nat
  sawtoothWaveform : Bool
  pulseWidth : Nat
  resonance : Nat
  wavePosition : Nat
  squareWavePosition : Nat
  phase : Phase
  resonanceSinePosition : Nat
  resonancePhase : ResonancePhase
  resonanceAmpSubtraction : Nat
  resAmpDecayFactor : Nat
  pcmWaveAddress : Option (Nat → Int)
  pcmWaveLength : Nat
  pcmWaveLooped : Bool
  pcmWaveInterpolated : Bool
  pcmInterpolationFactor : Nat
  squareLogSample : LogSample
  resonanceLogSample : LogSample
  firstPCMLogSample : LogSample
  secondPCMLogSample : LogSample

/-! ## Log-sample arithmetic (`LA32Utilites`) -/

/-- `LA32Utilites::interpolateExp`. -/
def interpolateExp (T : Tables) (fract : Nat) : Nat :=
  let expTabIndex := fract / 8
  let extraBits := fract % 8
  let expTabEntry2 := u16 (8191 - (T.exp9 expTabIndex : Int))
  let expTabEntry1 :=
    if expTabIndex = 0 then 8191 else u16 (8191 - (T.exp9 (expTabIndex - 1) : Int))
  u16 ((expTabEntry1 : Int) + (((expTabEntry2 : Int) - (expTabEntry1 : Int)) * (extraBits : Int)) / 8)

/-- `LA32Utilites::unlog`. -/
def unlog (T : Tables) (logSample : LogSample) : Int :=
  let intLogValue := logSample.logValue / 4096
  let fracLogValue := logSample.logValue % 4096
  let sample := s16 ((interpolateExp T fracLogValue / 2 ^ intLogValue : Nat) : Int)
  if logSample.sign = Sign.POSITIVE then sample else s16 (-sample)

/-- `LA32Utilites::addLogSamples`: the pair of the two referenced samples after the call
(the first is updated in place, the second is passed by constant reference). -/
def addLogSamples (logSample1 logSample2 : LogSample) : LogSample × LogSample :=
  let logSampleValue := u32 (logSample1.logValue + logSample2.logValue)
  ({ logValue := if logSampleValue < 65536 then logSampleValue else 65535,
     sign := if logSample1.sign = logSample2.sign then Sign.POSITIVE else Sign.NEGATIVE },
   logSample2)

/-! ## Oscillator (`LA32WaveGenerator`) -/

/-- The expression `interpolateExp(~pitch & 4095) << (pitch >> 12)` shared by
`getSampleStep` and `generateNextPCMWaveLogSamples`, as a `Bit32u`. -/
def pitchExp (T : Tables) (pitch : Nat) : Nat :=
  u32 (interpolateExp T (4095 - pitch % 4096) * 2 ^ (pitch / 4096))

/-- `LA32WaveGenerator::getSampleStep`. -/
def getSampleStep (T : Tables) (pitch : Nat) : Nat :=
  pitchExp T pitch / 256

/-- `pcmSampleStep` of `generateNextPCMWaveLogSamples`. -/
def pcmSampleStep (T : Tables) (pitch : Nat) : Nat :=
  pitchExp T pitch / 512

/-- `LA32WaveGenerator::getResonanceWaveLengthFactor`. -/
def getResonanceWaveLengthFactor (T : Tables) (effectiveCutoffValue : Nat) : Nat :=
  u32 (interpolateExp T (4095 - effectiveCutoffValue % 4096) * 2 ^ (effectiveCutoffValue / 4096))

/-- The local `effectivePulseWidthValue` of `getHighLinearLength`. -/
def effectivePulseWidthValue (pulseWidth : Nat) : Nat :=
  if pulseWidth > 128 then u32 ((pulseWidth - 128) * 64) else 0

/-- `LA32WaveGenerator::getHighLinearLength`. -/
def getHighLinearLength (T : Tables) (pulseWidth effectiveCutoffValue : Nat) : Nat :=
  let effectivePulseWidthValue := effectivePulseWidthValue pulseWidth
  if effectivePulseWidthValue < effectiveCutoffValue then
    let expArg := effectiveCutoffValue - effectivePulseWidthValue
    let highLinearLength := interpolateExp T (4095 - expArg % 4096)
    let highLinearLength := u32 (highLinearLength * 2 ^ (7 + expArg / 4096))
    wrap32 ((highLinearLength : Int) - 2 * (SINE_SEGMENT_RELATIVE_LENGTH : Int))
  else 0

/-- The local `effectiveCutoffValue` of `advancePosition`. -/
def effectiveCutoffValue (cutoffVal : Nat) : Nat :=
  if cutoffVal > MIDDLE_CUTOFF_VALUE then (cutoffVal - MIDDLE_CUTOFF_VALUE) / 1024 else 0

/-- The local `lowLinearLength` of `advancePosition`:
`(resonanceWaveLengthFactor << 8) - 4 * SINE_SEGMENT_RELATIVE_LENGTH - highLinearLength`
in `Bit32u` arithmetic. -/
def lowLinearLength (resonanceWaveLengthFactor highLinearLength : Nat) : Nat :=
  wrap32 ((wrap32 ((u32 (resonanceWaveLengthFactor * 256) : Int)
    - 4 * (SINE_SEGMENT_RELATIVE_LENGTH : Int)) : Int) - (highLinearLength : Int))

/-- `LA32WaveGenerator::computePositions`. -/
def computePositions (st : LA32WaveGenerator)
    (highLinearLength lowLinearLength resonanceWaveLengthFactor : Nat) : LA32WaveGenerator :=
  let p := u32 ((st.wavePosition / 256) * (resonanceWaveLengthFactor / 16))
  if p < SINE_SEGMENT_RELATIVE_LENGTH then
    { st with squareWavePosition := p, resonanceSinePosition := p,
              phase := Phase.POSITIVE_RISING_SINE_SEGMENT }
  else
    let sq1 := p - SINE_SEGMENT_RELATIVE_LENGTH
    if sq1 < highLinearLength then
      { st with squareWavePosition := sq1, resonanceSinePosition := p,
                phase := Phase.POSITIVE_LINEAR_SEGMENT }
    else
      let sq2 := sq1 - highLinearLength
      if sq2 < SINE_SEGMENT_RELATIVE_LENGTH then
        { st with squareWavePosition := sq2, resonanceSinePosition := p,
                  phase := Phase.POSITIVE_FALLING_SINE_SEGMENT }
      else
        let sq3 := sq2 - SINE_SEGMENT_RELATIVE_LENGTH
        if sq3 < SINE_SEGMENT_RELATIVE_LENGTH then
          { st with squareWavePosition := sq3, resonanceSinePosition := sq3,
                    phase := Phase.NEGATIVE_FALLING_SINE_SEGMENT }
        else
          let sq4 := sq3 - SINE_SEGMENT_RELATIVE_LENGTH
          if sq4 < lowLinearLength then
            { st with squareWavePosition := sq4, resonanceSinePosition := sq3,
                      phase := Phase.NEGATIVE_LINEAR_SEGMENT }
          else
            { st with squareWavePosition := sq4 - lowLinearLength, resonanceSinePosition := sq3,
                      phase := Phase.NEGATIVE_RISING_SINE_SEGMENT }

/-- `LA32WaveGenerator::advancePosition`. -/
def advancePosition (T : Tables) (st : LA32WaveGenerator) : LA32WaveGenerator :=
  let wavePosition := u32 (st.wavePosition + getSampleStep T st.pitch)
  let wavePosition := wavePosition % (4 * SINE_SEGMENT_RELATIVE_LENGTH)
  let ecv := effectiveCutoffValue st.cutoffVal
  let resonanceWaveLengthFactor := getResonanceWaveLengthFactor T ecv
  let highLinearLength := getHighLinearLength T st.pulseWidth ecv
  let lowLinear := lowLinearLength resonanceWaveLengthFactor highLinearLength
  let st1 := computePositions { st with wavePosition := wavePosition }
    highLinearLength lowLinear resonanceWaveLengthFactor
  let half := if st1.phase.toNat > Phase.POSITIVE_FALLING_SINE_SEGMENT.toNat then 2 else 0
  let phaseValue := (st1.resonanceSinePosition / 262144 + half) % 4
  { st1 with resonancePhase := ResonancePhase.fromValue phaseValue }

/-- The `logsin9` entry selected by `generateNextSquareWaveLogSample` (the `switch`). -/
def squareTableTerm (T : Tables) (phase : Phase) (squareWavePosition : Nat) : Nat :=
  match phase with
  | .POSITIVE_RISING_SINE_SEGMENT => T.logsin9 ((squareWavePosition / 512) % 512)
  | .POSITIVE_LINEAR_SEGMENT => 0
  | .POSITIVE_FALLING_SINE_SEGMENT => T.logsin9 (511 - (squareWavePosition / 512) % 512)
  | .NEGATIVE_FALLING_SINE_SEGMENT => T.logsin9 ((squareWavePosition / 512) % 512)
  | .NEGATIVE_LINEAR_SEGMENT => 0
  | .NEGATIVE_RISING_SINE_SEGMENT => T.logsin9 (511 - (squareWavePosition / 512) % 512)

/-- `LA32WaveGenerator::generateNextSquareWaveLogSample`. -/
def generateNextSquareWaveLogSample (T : Tables) (st : LA32WaveGenerator) : LA32WaveGenerator :=
  let logSampleValue := squareTableTerm T st.phase st.squareWavePosition
  let logSampleValue := u32 (logSampleValue * 4)
  let logSampleValue := u32 (logSampleValue + st.amp / 1024)
  let logSampleValue :=
    if st.cutoffVal < MIDDLE_CUTOFF_VALUE then
      u32 (logSampleValue + (MIDDLE_CUTOFF_VALUE - st.cutoffVal) / 512)
    else logSampleValue
  { st with squareLogSample :=
      { logValue := if logSampleValue < 65536 then logSampleValue else 65535,
        sign := if st.phase.toNat < Phase.NEGATIVE_FALLING_SINE_SEGMENT.toNat
                then Sign.POSITIVE else Sign.NEGATIVE } }

/-- The `logsin9` entry read first by `generateNextResonanceWaveLogSample`. -/
def resonanceTableTerm (T : Tables) (st : LA32WaveGenerator) : Nat :=
  if st.resonancePhase = ResonancePhase.POSITIVE_FALLING_RESONANCE_SINE_SEGMENT
      ∨ st.resonancePhase = ResonancePhase.NEGATIVE_RISING_RESONANCE_SINE_SEGMENT then
    T.logsin9 (511 - (st.resonanceSinePosition / 512) % 512)
  else
    T.logsin9 ((st.resonanceSinePosition / 512) % 512)

/-- The local `decayFactor` of `generateNextResonanceWaveLogSample`. -/
def decayFactor (st : LA32WaveGenerator) : Nat :=
  if st.phase.toNat < Phase.NEGATIVE_FALLING_SINE_SEGMENT.toNat then st.resAmpDecayFactor
  else u32 (st.resAmpDecayFactor + 1)

/-- The term `resonanceAmpSubtraction + (((resonanceSinePosition >> 4) * decayFactor) >> 8)`,
in `Bit32u` arithmetic. -/
def resonanceDecayTerm (st : LA32WaveGenerator) : Nat :=
  u32 (st.resonanceAmpSubtraction
    + u32 ((st.resonanceSinePosition / 16) * decayFactor st) / 256)

/-- The window added by `generateNextResonanceWaveLogSample` at the segment ends. -/
def resonanceWindowTerm (T : Tables) (st : LA32WaveGenerator) : Nat :=
  if st.phase = Phase.POSITIVE_RISING_SINE_SEGMENT
      ∨ st.phase = Phase.NEGATIVE_FALLING_SINE_SEGMENT then
    T.logsin9 ((st.squareWavePosition / 512) % 512) * 4
  else if st.phase = Phase.POSITIVE_FALLING_SINE_SEGMENT
      ∨ st.phase = Phase.NEGATIVE_RISING_SINE_SEGMENT then
    T.logsin9 (511 - (st.squareWavePosition / 512) % 512) * 8
  else 0

/-- The cutoff-dependent term added by `generateNextResonanceWaveLogSample`. -/
def resonanceCutoffTerm (T : Tables) (st : LA32WaveGenerator) : Nat :=
  if st.cutoffVal < MIDDLE_CUTOFF_VALUE then
    31743 + (MIDDLE_CUTOFF_VALUE - st.cutoffVal) / 512
  else if st.cutoffVal < RESONANCE_DECAY_THRESHOLD_CUTOFF_VALUE then
    T.logsin9 ((st.cutoffVal - MIDDLE_CUTOFF_VALUE) / 8192) * 4
  else 0

/-- `LA32WaveGenerator::generateNextResonanceWaveLogSample`. -/
def generateNextResonanceWaveLogSample (T : Tables) (st : LA32WaveGenerator) :
    LA32WaveGenerator :=
  let logSampleValue := resonanceTableTerm T st
  let logSampleValue := u32 (logSampleValue * 4)
  let logSampleValue := u32 (logSampleValue + st.amp / 1024)
  let logSampleValue := u32 (logSampleValue + resonanceDecayTerm st)
  let logSampleValue := u32 (logSampleValue + resonanceWindowTerm T st)
  let logSampleValue := u32 (logSampleValue + resonanceCutoffTerm T st)
  let logSampleValue := wrap32 ((logSampleValue : Int) - 4096)
  { st with resonanceLogSample :=
      { logValue := if logSampleValue < 65536 then logSampleValue else 65535,
        sign := if st.resonancePhase.toNat
                    < ResonancePhase.NEGATIVE_FALLING_RESONANCE_SINE_SEGMENT.toNat
                then Sign.POSITIVE else Sign.NEGATIVE } }

/-- `LA32WaveGenerator::nextSawtoothCosineLogSample`; `logValue` is a `Bit16u`. -/
def nextSawtoothCosineLogSample (T : Tables) (st : LA32WaveGenerator) : LogSample :=
  let sawtoothCosinePosition := u32 (st.wavePosition + 262144)
  let entry :=
    if (sawtoothCosinePosition / 262144) % 2 = 1 then
      T.logsin9 (511 - (sawtoothCosinePosition / 512) % 512)
    else
      T.logsin9 ((sawtoothCosinePosition / 512) % 512)
  { logValue := u16 ((u16 (entry : Int) : Int) * 4),
    sign := if (sawtoothCosinePosition / 524288) % 2 = 0 then Sign.POSITIVE else Sign.NEGATIVE }

/-- `LA32WaveGenerator::pcmSampleToLogSample`; `pcmSample & 32767` on the promoted
two's-complement `int` is `pcmSample % 32768`. -/
def pcmSampleToLogSample (st : LA32WaveGenerator) (pcmSample : Int) : LogSample :=
  let logSampleValue := wrap32 ((32787 - pcmSample % 32768) * 2)
  let logSampleValue := u32 (logSampleValue + st.amp / 1024)
  { logValue := if logSampleValue < 65536 then logSampleValue else 65535,
    sign := if pcmSample < 0 then Sign.NEGATIVE else Sign.POSITIVE }

/-- `LA32WaveGenerator::deactivate`. -/
def deactivate (st : LA32WaveGenerator) : LA32WaveGenerator :=
  { st with active := false }

/-- `LA32WaveGenerator::isActive`. -/
def isActive (st : LA32WaveGenerator) : Bool := st.active

/-- `LA32WaveGenerator::isPCMWave`. -/
def isPCMWave (st : LA32WaveGenerator) : Bool := st.pcmWaveAddress.isSome

/-- `LA32WaveGenerator::getPCMInterpolationFactor`. -/
def getPCMInterpolationFactor (st : LA32WaveGenerator) : Nat := st.pcmInterpolationFactor

/-- The second sample computed by `generateNextPCMWaveLogSamples`. -/
def secondPCMSample (st : LA32WaveGenerator) (mem : Nat → Int) (pcmWaveTableIx : Nat) :
    LogSample :=
  if st.pcmWaveInterpolated then
    let ix := u32 (pcmWaveTableIx + 1)
    if ix < st.pcmWaveLength then pcmSampleToLogSample st (mem ix)
    else if st.pcmWaveLooped then pcmSampleToLogSample st (mem (ix - st.pcmWaveLength))
    else SILENCE
  else SILENCE

/-- `LA32WaveGenerator::generateNextPCMWaveLogSamples`, for the memory view `mem` of
`pcmWaveAddress`. -/
def generateNextPCMWaveLogSamples (T : Tables) (st : LA32WaveGenerator) (mem : Nat → Int) :
    LA32WaveGenerator :=
  let pcmWaveTableIx := st.wavePosition / 256
  let st1 := { st with
    pcmInterpolationFactor := (st.wavePosition % 256) / 2,
    firstPCMLogSample := pcmSampleToLogSample st (mem pcmWaveTableIx),
    secondPCMLogSample := secondPCMSample st mem pcmWaveTableIx }
  let wavePosition := u32 (st.wavePosition + pcmSampleStep T st.pitch)
  if wavePosition ≥ u32 (st.pcmWaveLength * 256) then
    if st.pcmWaveLooped then
      { st1 with wavePosition := wavePosition - u32 (st.pcmWaveLength * 256) }
    else
      deactivate { st1 with wavePosition := wavePosition }
  else
    { st1 with wavePosition := wavePosition }

/-- `LA32WaveGenerator::initSynth` (`pulseWidth`, `resonance` are `Bit8u`). -/
def initSynth (T : Tables) (st : LA32WaveGenerator) (sawtoothWaveform : Bool)
    (pulseWidth resonance : Nat) : LA32WaveGenerator :=
  { st with
    sawtoothWaveform := sawtoothWaveform
    pulseWidth := pulseWidth
    resonance := resonance
    wavePosition := 0
    squareWavePosition := 0
    phase := Phase.POSITIVE_RISING_SINE_SEGMENT
    resonanceSinePosition := 0
    resonancePhase := ResonancePhase.POSITIVE_RISING_RESONANCE_SINE_SEGMENT
    resonanceAmpSubtraction := wrap32 ((32 - (resonance : Int)) * 1024)
    resAmpDecayFactor := T.resAmpDecayFactor (resonance / 4) * 4
    pcmWaveAddress := none
    active := true }

/-- `LA32WaveGenerator::initPCM`. -/
def initPCM (st : LA32WaveGenerator) (pcmWaveAddress : Option (Nat → Int))
    (pcmWaveLength : Nat) (pcmWaveLooped pcmWaveInterpolated : Bool) : LA32WaveGenerator :=
  { st with
    pcmWaveAddress := pcmWaveAddress
    pcmWaveLength := pcmWaveLength
    pcmWaveLooped := pcmWaveLooped
    pcmWaveInterpolated := pcmWaveInterpolated
    wavePosition := 0
    active := true }

/-- `LA32WaveGenerator::generateNextSample`. -/
def generateNextSample (T : Tables) (st : LA32WaveGenerator) (amp pitch cutoffVal : Nat) :
    LA32WaveGenerator :=
  if !st.active then st
  else
    let st := { st with amp := amp, pitch := pitch }
    match st.pcmWaveAddress with
    | some mem => generateNextPCMWaveLogSamples T st mem
    | none =>
      let st := { st with
        cutoffVal := if cutoffVal > MAX_CUTOFF_VALUE then MAX_CUTOFF_VALUE else cutoffVal }
      let st := generateNextSquareWaveLogSample T st
      let st := generateNextResonanceWaveLogSample T st
      let st :=
        if st.sawtoothWaveform then
          let cosineLogSample := nextSawtoothCosineLogSample T st
          { st with
            squareLogSample := (addLogSamples st.squareLogSample cosineLogSample).1
            resonanceLogSample := (addLogSamples st.resonanceLogSample cosineLogSample).1 }
        else st
      advancePosition T st

/-- `LA32WaveGenerator::getOutputLogSample`. -/
def getOutputLogSample (st : LA32WaveGenerator) (first : Bool) : LogSample :=
  if !isActive st then SILENCE
  else if isPCMWave st then
    (if first then st.firstPCMLogSample else st.secondPCMLogSample)
  else
    (if first then st.squareLogSample else st.resonanceLogSample)

/-- The state after a sequence of `generateNextSample` calls with the given
`(amp, pitch, cutoffVal)` arguments. -/
def runSamples (T : Tables) (st : LA32WaveGenerator) :
    List (Nat × Nat × Nat) → LA32WaveGenerator
  | [] => st
  | (amp, pitch, cutoffVal) :: rest =>
    runSamples T (generateNextSample T st amp pitch cutoffVal) rest

/-! ## Voice pair (`LA32PartialPair`) -/

/-- The state of a voice pair. -/
structure LA32PartialPair where
  master : LA32WaveGenerator
  slave : LA32WaveGenerator
  ringModulated : Bool
  mixed : Bool

/-- `LA32PartialPair::unlogAndMixWGOutput`; `ringModulatingLogSample` is `none` for `NULL`.
The PCM product is evaluated in unsigned 32-bit arithmetic (`Bit32s * Bit32u`). -/
def unlogAndMixWGOutput (T : Tables) (wg : LA32WaveGenerator)
    (ringModulatingLogSample : Option LogSample) : Int :=
  if !isActive wg
      || (match ringModulatingLogSample with
          | some r => r.logValue == SILENCE.logValue
          | none => false) then 0
  else
    let firstLogSample := getOutputLogSample wg true
    let secondLogSample := getOutputLogSample wg false
    let firstLogSample :=
      match ringModulatingLogSample with
      | some r => (addLogSamples firstLogSample r).1
      | none => firstLogSample
    let secondLogSample :=
      match ringModulatingLogSample with
      | some r => (addLogSamples secondLogSample r).1
      | none => secondLogSample
    let firstSample := unlog T firstLogSample
    let secondSample := unlog T secondLogSample
    if isPCMWave wg then
      let product := u32 (wrap32 (secondSample - firstSample) * getPCMInterpolationFactor wg)
      s16 ((wrap32 (firstSample + ((product / 128 : Nat) : Int)) : Nat) : Int)
    else
      s16 (firstSample + secondSample)

/-- `LA32PartialPair::nextOutSample`. -/
def nextOutSample (T : Tables) (pair : LA32PartialPair) : Int :=
  if pair.ringModulated then
    let slaveFirstLogSample := getOutputLogSample pair.slave true
    let slaveSecondLogSample := getOutputLogSample pair.slave false
    let sample := unlogAndMixWGOutput T pair.master (some slaveFirstLogSample)
    let sample :=
      if !isPCMWave pair.slave then
        s16 (sample + unlogAndMixWGOutput T pair.master (some slaveSecondLogSample))
      else sample
    let sample :=
      if pair.mixed then s16 (sample + unlogAndMixWGOutput T pair.master none) else sample
    sample
  else
    s16 (unlogAndMixWGOutput T pair.master none + unlogAndMixWGOutput T pair.slave none)

/-! ## Assumptions on the tables and a concrete instance -/

/-- Every one of the 512 `exp9` entries is at most `B`. -/
def ExpBounded (T : Tables) (B : Nat) : Prop := ∀ i, i < 512 → T.exp9 i ≤ B

/-- The 512 `exp9` entries are non-decreasing. -/
def ExpMonotone (T : Tables) : Prop := ∀ i j, i ≤ j → j < 512 → T.exp9 i ≤ T.exp9 j

/-- The value `E j` between which `interpolateExp` interpolates:
`E 0 = 8191` and `E j = 8191 - exp9[j - 1]`. -/
def expEntry (T : Tables) (j : Nat) : Int :=
  if j = 0 then 8191 else 8191 - (T.exp9 (j - 1) : Int)

/-- A concrete set of tables used to instantiate the theorems: `exp9` rises linearly from 518
to 4095 (so that `interpolateExp 4095 = 4096`), `logsin9` falls linearly from 8176 to 0, and
`resAmpDecayFactor` falls from 31 to 1. -/
def demoTables : Tables where
  exp9 := fun i => 7 * (i + 1) + 511
  logsin9 := fun i => (511 - i) * 16
  resAmpDecayFactor := fun i => [31, 16, 12, 8, 5, 3, 2, 1].getD i 0

/-! ## Exact-integer readings used to state the absence of wraparound -/

/-- The unbounded value of `interpolateExp(~x & 4095) << (x >> 12)`. -/
def expShift (T : Tables) (x : Nat) : Nat :=
  interpolateExp T (4095 - x % 4096) * 2 ^ (x / 4096)

/-- The resonance wave length factor as an unbounded integer. -/
def resonanceWaveLengthFactorExact (T : Tables) (effectiveCutoffValue : Nat) : Int :=
  (expShift T effectiveCutoffValue : Int)

/-- The high linear length as an unbounded integer: every operation of
`getHighLinearLength` read in the integers, without truncation to 32 bits. -/
def highLinearLengthExact (T : Tables) (pulseWidth effectiveCutoffValue : Nat) : Int :=
  let effectivePulseWidthValue : Int :=
    if pulseWidth > 128 then ((pulseWidth : Int) - 128) * 64 else 0
  if effectivePulseWidthValue < (effectiveCutoffValue : Int) then
    let expArg := ((effectiveCutoffValue : Int) - effectivePulseWidthValue).toNat
    (interpolateExp T (4095 - expArg % 4096) : Int) * 2 ^ (7 + expArg / 4096) - 2 * 262144
  else 0

/-- The low linear length as an unbounded integer. -/
def lowLinearLengthExact (T : Tables) (pulseWidth effectiveCutoffValue : Nat) : Int :=
  resonanceWaveLengthFactorExact T effectiveCutoffValue * 256 - 4 * 262144
    - highLinearLengthExact T pulseWidth effectiveCutoffValue

/-! ## Concrete inputs -/

/-- An oscillator object before its first initialisation, every field zero. -/
def zeroState : LA32WaveGenerator where
  active := false
  amp := 0
  pitch := 0
  cutoffVal := 0
  sawtoothWaveform := false
  pulseWidth := 0
  resonance := 0
  wavePosition := 0
  squareWavePosition := 0
  phase := Phase.POSITIVE_RISING_SINE_SEGMENT
  resonanceSinePosition := 0
  resonancePhase := ResonancePhase.POSITIVE_RISING_RESONANCE_SINE_SEGMENT
  resonanceAmpSubtraction := 0
  resAmpDecayFactor := 0
  pcmWaveAddress := none
  pcmWaveLength := 0
  pcmWaveLooped := false
  pcmWaveInterpolated := false
  pcmInterpolationFactor := 0
  squareLogSample := SILENCE
  resonanceLogSample := SILENCE
  firstPCMLogSample := SILENCE
  secondPCMLogSample := SILENCE

/-- The memory view of a PCM table given as a list; what lies behind the table reads as 0. -/
def pcmTableView (table : List Int) : Nat → Int := fun i => table.getD i 0

/-- The four-entry wave table of the end-to-end PCM scenario. -/
def scenarioTable : List Int := [100, -100, 200, -200]

/-- The exact integer sum of the terms added by `generateNextResonanceWaveLogSample` before
`1 << 12` is subtracted: the table term times 4, `amp >> 10`, `resonanceAmpSubtraction`, the
positional decay term, the window term and the cutoff term, without truncation. -/
def resonanceLogSumExact (T : Tables) (st : LA32WaveGenerator) : Nat :=
  resonanceTableTerm T st * 4 + st.amp / 1024 + st.resonanceAmpSubtraction
    + (st.resonanceSinePosition / 16) * decayFactor st / 256
    + resonanceWindowTerm T st + resonanceCutoffTerm T st

/-! ## Readings used to state the square wave and segment claims -/

/-- Every one of the 512 `logsin9` entries is a `Bit16u`. -/
def LogsinBounded (T : Tables) : Prop := ∀ i, i < 512 → T.logsin9 i ≤ 65535

/-- The `logsin9` index read by the `switch` of `generateNextSquareWaveLogSample`, case by
case; `none` in the two linear segments, where no entry is read. -/
def squareTableIndex (phase : Phase) (squareWavePosition : Nat) : Option Nat :=
  match phase with
  | .POSITIVE_RISING_SINE_SEGMENT => some ((squareWavePosition / 512) % 512)
  | .POSITIVE_LINEAR_SEGMENT => none
  | .POSITIVE_FALLING_SINE_SEGMENT => some (511 - (squareWavePosition / 512) % 512)
  | .NEGATIVE_FALLING_SINE_SEGMENT => some ((squareWavePosition / 512) % 512)
  | .NEGATIVE_LINEAR_SEGMENT => none
  | .NEGATIVE_RISING_SINE_SEGMENT => some (511 - (squareWavePosition / 512) % 512)

/-- The boost added to the square wave below the middle cutoff:
`(MIDDLE_CUTOFF_VALUE - cutoffVal) >> 9`, and 0 from the middle cutoff on. -/
def squareCutoffBoost (cutoffVal : Nat) : Nat :=
  if cutoffVal < MIDDLE_CUTOFF_VALUE then (MIDDLE_CUTOFF_VALUE - cutoffVal) / 512 else 0

/-- The length of each of the six segments of the cycle, for the given linear lengths. -/
def segmentLength (highLinearLength lowLinearLength : Nat) : Phase → Nat
  | .POSITIVE_RISING_SINE_SEGMENT => 262144
  | .POSITIVE_LINEAR_SEGMENT => highLinearLength
  | .POSITIVE_FALLING_SINE_SEGMENT => 262144
  | .NEGATIVE_FALLING_SINE_SEGMENT => 262144
  | .NEGATIVE_LINEAR_SEGMENT => lowLinearLength
  | .NEGATIVE_RISING_SINE_SEGMENT => 262144

/-- The sum of the lengths of the segments that precede the given one in the cycle. -/
def segmentStart (highLinearLength lowLinearLength : Nat) : Phase → Nat
  | .POSITIVE_RISING_SINE_SEGMENT => 0
  | .POSITIVE_LINEAR_SEGMENT => 262144
  | .POSITIVE_FALLING_SINE_SEGMENT => 262144 + highLinearLength
  | .NEGATIVE_FALLING_SINE_SEGMENT => 262144 + highLinearLength + 262144
  | .NEGATIVE_LINEAR_SEGMENT => 262144 + highLinearLength + 262144 + 262144
  | .NEGATIVE_RISING_SINE_SEGMENT =>
      262144 + highLinearLength + 262144 + 262144 + lowLinearLength

/-- The part of `generateNextSample` between the cutoff clamp and `advancePosition`: the
square and resonance log samples, blended with the sawtooth cosine when configured. -/
def generateSynthLogSamples (T : Tables) (st : LA32WaveGenerator) : LA32WaveGenerator :=
  let st := generateNextSquareWaveLogSample T st
  let st := generateNextResonanceWaveLogSample T st
  if st.sawtoothWaveform then
    let cosineLogSample := nextSawtoothCosineLogSample T st
    { st with
      squareLogSample := (addLogSamples st.squareLogSample cosineLogSample).1
      resonanceLogSample := (addLogSamples st.resonanceLogSample cosineLogSample).1 }
  else st

/-- A two-entry PCM table with a loud positive and a loud negative sample. -/
def loudTable : List Int := [32767, -1]

/-- The state `base` with the fields written by a synth `generateNextSample` call (the three
inputs, the two cached log samples, the position and the four fields derived from it) taken
from `dyn`. -/
def withDynamics (base dyn : LA32WaveGenerator) : LA32WaveGenerator :=
  { base with
    amp := dyn.amp
    pitch := dyn.pitch
    cutoffVal := dyn.cutoffVal
    squareLogSample := dyn.squareLogSample
    resonanceLogSample := dyn.resonanceLogSample
    wavePosition := dyn.wavePosition
    squareWavePosition := dyn.squareWavePosition
    phase := dyn.phase
    resonanceSinePosition := dyn.resonanceSinePosition
    resonancePhase := dyn.resonancePhase }

/-! ## Lemmas on `interpolateExp` -/

theorem demoTables_bounded : ExpBounded demoTables 4095 := by
  intro i hi
  simp only [demoTables]
  omega

theorem demoTables_monotone : ExpMonotone demoTables := by
  intro i j hij _
  simp only [demoTables]
  omega

theorem ExpBounded.mono {T : Tables} {B C : Nat} (h : ExpBounded T B) (hBC : B ≤ C) :
    ExpBounded T C := fun i hi => le_trans (h i hi) hBC

theorem expEntry_nonneg {T : Tables} (hB : ExpBounded T 8191) (j : Nat) (hj : j ≤ 512) :
    0 ≤ expEntry T j ∧ expEntry T j ≤ 8191 := by
  unfold expEntry
  split_ifs with h0
  · omega
  · have := hB (j - 1) (by omega)
    omega

theorem expEntry_succ_le {T : Tables} (hM : ExpMonotone T) (j : Nat) (hj : j < 512) :
    expEntry T (j + 1) ≤ expEntry T j := by
  unfold expEntry
  by_cases h0 : j = 0
  · subst h0
    simp
  · have := hM (j - 1) j (by omega) hj
    simp only [h0, if_false, Nat.add_sub_cancel, Nat.succ_ne_zero]
    omega

theorem u16_cast {x : Int} (h0 : 0 ≤ x) (h1 : x < 65536) : ((u16 x : Nat) : Int) = x := by
  unfold u16
  omega

theorem u16_lt (x : Int) : u16 x < 65536 := by
  unfold u16
  omega

/-- Linear interpolation in eighths stays between its two end points. -/
theorem interp_between (e1 e2 : Int) (k : Nat) (hk : k < 8) :
    min e1 e2 ≤ e1 + ((e2 - e1) * (k : Int)) / 8
      ∧ e1 + ((e2 - e1) * (k : Int)) / 8 ≤ max e1 e2 := by
  interval_cases k <;> simp <;> omega

/-- The value of `interpolateExp` without the 16-bit truncations. -/
theorem interpolateExp_eq {T : Tables} (hB : ExpBounded T 8191) (fract : Nat)
    (hf : fract ≤ 4095) :
    (interpolateExp T fract : Int)
      = expEntry T (fract / 8)
        + ((expEntry T (fract / 8 + 1) - expEntry T (fract / 8)) * ((fract % 8 : Nat) : Int)) / 8 := by
  have hk : fract % 8 < 8 := Nat.mod_lt _ (by norm_num)
  have hE1 := expEntry_nonneg hB (fract / 8) (by omega)
  have hE2 := expEntry_nonneg hB (fract / 8 + 1) (by omega)
  have h1 : (((if fract / 8 = 0 then 8191
      else u16 (8191 - (T.exp9 (fract / 8 - 1) : Int)) : Nat)) : Int) = expEntry T (fract / 8) := by
    unfold expEntry at hE1 ⊢
    split_ifs with h0
    · rfl
    · simp only [h0, if_false] at hE1
      exact u16_cast (by omega) (by omega)
  have h2 : ((u16 (8191 - (T.exp9 (fract / 8) : Int)) : Nat) : Int)
      = expEntry T (fract / 8 + 1) := by
    unfold expEntry at hE2 ⊢
    simp only [Nat.add_sub_cancel, Nat.succ_ne_zero, if_false] at hE2 ⊢
    exact u16_cast (by omega) (by omega)
  have hb := interp_between (expEntry T (fract / 8)) (expEntry T (fract / 8 + 1)) (fract % 8) hk
  unfold interpolateExp
  simp only []
  rw [h1, h2]
  apply u16_cast <;> omega

/-- Under the 8191 bound the result of `interpolateExp` lies between the two table values. -/
theorem interpolateExp_between {T : Tables} (hB : ExpBounded T 8191) (fract : Nat)
    (hf : fract ≤ 4095) :
    min (expEntry T (fract / 8)) (expEntry T (fract / 8 + 1)) ≤ (interpolateExp T fract : Int)
      ∧ (interpolateExp T fract : Int)
          ≤ max (expEntry T (fract / 8)) (expEntry T (fract / 8 + 1)) := by
  rw [interpolateExp_eq hB fract hf]
  exact interp_between _ _ _ (Nat.mod_lt _ (by norm_num))

theorem interpolateExp_le_8191 {T : Tables} (hB : ExpBounded T 8191) (fract : Nat)
    (hf : fract ≤ 4095) : interpolateExp T fract ≤ 8191 := by
  have h := interpolateExp_between hB fract hf
  have hE1 := expEntry_nonneg hB (fract / 8) (by omega)
  have hE2 := expEntry_nonneg hB (fract / 8 + 1) (by omega)
  omega

theorem interpolateExp_zero (T : Tables) : interpolateExp T 0 = 8191 := by
  simp [interpolateExp, u16]

/-- `interpolateExp` at position `k` of table interval `j`. -/
theorem interpolateExp_at {T : Tables} (hB : ExpBounded T 8191) (j k : Nat) (hj : j < 512)
    (hk : k < 8) :
    (interpolateExp T (8 * j + k) : Int)
      = expEntry T j + ((expEntry T (j + 1) - expEntry T j) * (k : Int)) / 8 := by
  have h := interpolateExp_eq hB (8 * j + k) (by omega)
  have e1 : (8 * j + k) / 8 = j := by omega
  have e2 : (8 * j + k) % 8 = k := by omega
  rw [e1, e2] at h
  exact h

theorem nat_split8 (fract : Nat) : ∃ j k, k < 8 ∧ fract = 8 * j + k ∧ j = fract / 8 :=
  ⟨fract / 8, fract % 8, Nat.mod_lt _ (by norm_num), by omega, rfl⟩

/-- With a non-decreasing table the interpolation runs from `E j` down to `E (j + 1)`. -/
theorem interpolateExp_range {T : Tables} (hB : ExpBounded T 8191) (hM : ExpMonotone T)
    (fract : Nat) (hf : fract ≤ 4095) :
    expEntry T (fract / 8 + 1) ≤ (interpolateExp T fract : Int)
      ∧ (interpolateExp T fract : Int) ≤ expEntry T (fract / 8) := by
  have h := interpolateExp_between hB fract hf
  have hm := expEntry_succ_le hM (fract / 8) (by omega)
  omega

/-- One step of the argument lowers `interpolateExp` by at most an eighth, rounded up, of the
table step of the interval the argument lies in. -/
theorem interpolateExp_step {T : Tables} (hB : ExpBounded T 8191) (hM : ExpMonotone T)
    (fract : Nat) (hf : fract ≤ 4094) :
    0 ≤ (interpolateExp T fract : Int) - (interpolateExp T (fract + 1) : Int)
      ∧ (interpolateExp T fract : Int) - (interpolateExp T (fract + 1) : Int)
          ≤ (expEntry T (fract / 8) - expEntry T (fract / 8 + 1) + 7) / 8 := by
  obtain ⟨j, k, hk, hfk, hj⟩ := nat_split8 fract
  rw [← hj]
  subst hfk
  have hj512 : j < 512 := by omega
  have hm := expEntry_succ_le hM j hj512
  by_cases h7 : k = 7
  · subst h7
    have hnext : 8 * j + 7 + 1 = 8 * (j + 1) + 0 := by omega
    rw [hnext, interpolateExp_at hB j 7 hj512 (by norm_num),
      interpolateExp_at hB (j + 1) 0 (by omega) (by norm_num)]
    simp
    omega
  · have hk7 : k < 7 := by omega
    have hnext : 8 * j + k + 1 = 8 * j + (k + 1) := by omega
    rw [hnext, interpolateExp_at hB j k hj512 hk,
      interpolateExp_at hB j (k + 1) hj512 (by omega)]
    interval_cases k <;> simp <;> omega

/-- `interpolateExp` is non-increasing over `[0, 4095]`. -/
theorem interpolateExp_antitone {T : Tables} (hB : ExpBounded T 8191) (hM : ExpMonotone T)
    (f g : Nat) (hfg : f ≤ g) (hg : g ≤ 4095) :
    interpolateExp T g ≤ interpolateExp T f := by
  induction g with
  | zero =>
    have : f = 0 := by omega
    subst this
    exact le_refl _
  | succ n ih =>
    by_cases hfn : f = n + 1
    · subst hfn
      exact le_refl _
    · have h1 := ih (by omega) (by omega)
      have h2 := (interpolateExp_step hB hM n (by omega)).1
      omega

/-- With entries up to 4095 the result of `interpolateExp` is at least 4096. -/
theorem interpolateExp_ge_4096 {T : Tables} (hB : ExpBounded T 4095) (fract : Nat)
    (hf : fract ≤ 4095) : 4096 ≤ interpolateExp T fract := by
  have hB8 : ExpBounded T 8191 := hB.mono (by norm_num)
  have h := interpolateExp_between hB8 fract hf
  have e1 : 4096 ≤ expEntry T (fract / 8) := by
    unfold expEntry
    split_ifs
    · norm_num
    · have := hB (fract / 8 - 1) (by omega)
      omega
  have e2 : 4096 ≤ expEntry T (fract / 8 + 1) := by
    unfold expEntry
    simp only [Nat.add_sub_cancel, Nat.succ_ne_zero, if_false]
    have := hB (fract / 8) (by omega)
    omega
  omega

/-! ## Lemmas on the exponential maps of `advancePosition` -/

theorem two_pow_le_128 (q : Nat) (hq : q ≤ 7) : 2 ^ q ≤ 128 := by
  calc 2 ^ q ≤ 2 ^ 7 := Nat.pow_le_pow_right (by norm_num) hq
    _ = 128 := by norm_num

/-- With entries up to 4095, `expShift` lies in `[4096, 8191 * 128]` for arguments below
`8 * 4096`. -/
theorem expShift_bounds {T : Tables} (hB : ExpBounded T 4095) (x : Nat) (hx : x < 32768) :
    4096 ≤ expShift T x ∧ expShift T x ≤ 1048448 := by
  have hlo := interpolateExp_ge_4096 hB (4095 - x % 4096) (by omega)
  have hhi := interpolateExp_le_8191 (hB.mono (by norm_num)) (4095 - x % 4096) (by omega)
  have hp := two_pow_le_128 (x / 4096) (by omega)
  have hp1 : 1 ≤ 2 ^ (x / 4096) := Nat.one_le_two_pow
  unfold expShift
  constructor
  · calc 4096 = 4096 * 1 := by norm_num
      _ ≤ interpolateExp T (4095 - x % 4096) * 2 ^ (x / 4096) := Nat.mul_le_mul hlo hp1
  · calc interpolateExp T (4095 - x % 4096) * 2 ^ (x / 4096) ≤ 8191 * 128 :=
        Nat.mul_le_mul hhi hp
      _ = 1048448 := by norm_num

/-- With a non-decreasing table with entries up to 4095, `expShift` is non-decreasing. -/
theorem expShift_mono {T : Tables} (hB : ExpBounded T 4095) (hM : ExpMonotone T)
    (x y : Nat) (hxy : x ≤ y) : expShift T x ≤ expShift T y := by
  have hB8 : ExpBounded T 8191 := hB.mono (by norm_num)
  unfold expShift
  by_cases hq : x / 4096 = y / 4096
  · rw [hq]
    apply Nat.mul_le_mul_right
    exact interpolateExp_antitone hB8 hM _ _ (by omega) (by omega)
  · have hlt : x / 4096 + 1 ≤ y / 4096 := by
      have : x / 4096 ≤ y / 4096 := Nat.div_le_div_right hxy
      omega
    have hhi := interpolateExp_le_8191 hB8 (4095 - x % 4096) (by omega)
    have hlo := interpolateExp_ge_4096 hB (4095 - y % 4096) (by omega)
    calc interpolateExp T (4095 - x % 4096) * 2 ^ (x / 4096)
        ≤ 8192 * 2 ^ (x / 4096) := Nat.mul_le_mul_right _ (by omega)
      _ = 4096 * 2 ^ (x / 4096 + 1) := by rw [pow_succ]; ring
      _ ≤ 4096 * 2 ^ (y / 4096) :=
          Nat.mul_le_mul_left _ (Nat.pow_le_pow_right (by norm_num) hlt)
      _ ≤ interpolateExp T (4095 - y % 4096) * 2 ^ (y / 4096) := Nat.mul_le_mul_right _ hlo

theorem effectiveCutoffValue_le (cutoffVal : Nat) (hc : cutoffVal ≤ MAX_CUTOFF_VALUE) :
    effectiveCutoffValue cutoffVal ≤ 28672 := by
  unfold effectiveCutoffValue MIDDLE_CUTOFF_VALUE
  unfold MAX_CUTOFF_VALUE at hc
  split_ifs <;> omega

theorem effectivePulseWidthValue_le (pulseWidth : Nat) (hpw : pulseWidth ≤ 255) :
    effectivePulseWidthValue pulseWidth ≤ 8128
      ∧ ((effectivePulseWidthValue pulseWidth : Nat) : Int)
          = (if pulseWidth > 128 then ((pulseWidth : Int) - 128) * 64 else 0) := by
  unfold effectivePulseWidthValue u32
  split_ifs with h
  · constructor <;> omega
  · constructor <;> simp

theorem getResonanceWaveLengthFactor_eq {T : Tables} (hB : ExpBounded T 4095) (ecv : Nat)
    (hc : ecv ≤ 28672) : getResonanceWaveLengthFactor T ecv = expShift T ecv := by
  have hBd := expShift_bounds hB ecv (by omega)
  show u32 (expShift T ecv) = expShift T ecv
  unfold u32
  omega

theorem shift7 (a q : Nat) : a * 2 ^ (7 + q) = a * 2 ^ q * 128 := by
  rw [pow_add]
  ring

/-- `getHighLinearLength` without truncation: where the branch is taken the shifted value is
at least `2 * SINE_SEGMENT_RELATIVE_LENGTH` and fits 32 bits. -/
theorem getHighLinearLength_eq {T : Tables} (hB : ExpBounded T 4095) (pulseWidth ecv : Nat)
    (hc : ecv ≤ 28672) :
    getHighLinearLength T pulseWidth ecv
      = if effectivePulseWidthValue pulseWidth < ecv then
          expShift T (ecv - effectivePulseWidthValue pulseWidth) * 128 - 524288
        else 0 := by
  unfold getHighLinearLength
  simp only []
  split_ifs with hlt
  · have hA := expShift_bounds hB (ecv - effectivePulseWidthValue pulseWidth) (by omega)
    rw [shift7]
    show wrap32 (((u32 (expShift T (ecv - effectivePulseWidthValue pulseWidth) * 128) : Nat) : Int)
      - 2 * ((SINE_SEGMENT_RELATIVE_LENGTH : Nat) : Int)) = _
    generalize expShift T (ecv - effectivePulseWidthValue pulseWidth) = a at hA ⊢
    unfold wrap32 u32 SINE_SEGMENT_RELATIVE_LENGTH
    omega
  · rfl

theorem highLinearLengthExact_eq (T : Tables) (pulseWidth ecv : Nat) (hpw : pulseWidth ≤ 255) :
    highLinearLengthExact T pulseWidth ecv
      = if effectivePulseWidthValue pulseWidth < ecv then
          ((expShift T (ecv - effectivePulseWidthValue pulseWidth) : Nat) : Int) * 128 - 524288
        else 0 := by
  obtain ⟨_, he⟩ := effectivePulseWidthValue_le pulseWidth hpw
  unfold highLinearLengthExact
  simp only []
  rw [← he]
  by_cases hlt : effectivePulseWidthValue pulseWidth < ecv
  · have h1 : ((effectivePulseWidthValue pulseWidth : Nat) : Int) < (ecv : Int) := by omega
    have h2 : ((ecv : Int) - ((effectivePulseWidthValue pulseWidth : Nat) : Int)).toNat
        = ecv - effectivePulseWidthValue pulseWidth := by omega
    rw [if_pos h1, if_pos hlt, h2]
    unfold expShift
    generalize ecv - effectivePulseWidthValue pulseWidth = x
    have h3 : ((interpolateExp T (4095 - x % 4096) * 2 ^ (x / 4096) : Nat) : Int)
        = (interpolateExp T (4095 - x % 4096) : Int) * 2 ^ (x / 4096) := by push_cast; rfl
    rw [h3, pow_add]
    ring
  · have h1 : ¬ ((effectivePulseWidthValue pulseWidth : Nat) : Int) < (ecv : Int) := by omega
    rw [if_neg h1, if_neg hlt]

/-- The values computed by `advancePosition` from `pulseWidth` and the effective cutoff,
related to their exact-integer readings. -/
theorem linearLengths_exact {T : Tables} (hB : ExpBounded T 4095) (hM : ExpMonotone T)
    (pulseWidth ecv : Nat) (hpw : pulseWidth ≤ 255) (hc : ecv ≤ 28672) :
    (getResonanceWaveLengthFactor T ecv : Int) = resonanceWaveLengthFactorExact T ecv
    ∧ (getHighLinearLength T pulseWidth ecv : Int) = highLinearLengthExact T pulseWidth ecv
    ∧ 0 ≤ highLinearLengthExact T pulseWidth ecv
    ∧ (lowLinearLength (getResonanceWaveLengthFactor T ecv)
          (getHighLinearLength T pulseWidth ecv) : Int)
        = lowLinearLengthExact T pulseWidth ecv
    ∧ 0 ≤ lowLinearLengthExact T pulseWidth ecv
    ∧ getResonanceWaveLengthFactor T ecv * 256 < 4294967296
    ∧ 4 * 262144 ≤ getResonanceWaveLengthFactor T ecv * 256
    ∧ getHighLinearLength T pulseWidth ecv
        + lowLinearLength (getResonanceWaveLengthFactor T ecv)
            (getHighLinearLength T pulseWidth ecv) + 4 * 262144
        = getResonanceWaveLengthFactor T ecv * 256 := by
  have hBd := expShift_bounds hB ecv (by omega)
  have hA := expShift_bounds hB (ecv - effectivePulseWidthValue pulseWidth) (by omega)
  have hAB := expShift_mono hB hM (ecv - effectivePulseWidthValue pulseWidth) ecv (by omega)
  unfold lowLinearLengthExact resonanceWaveLengthFactorExact
  rw [getResonanceWaveLengthFactor_eq hB ecv hc, getHighLinearLength_eq hB pulseWidth ecv hc,
    highLinearLengthExact_eq T pulseWidth ecv hpw]
  generalize expShift T (ecv - effectivePulseWidthValue pulseWidth) = a at hA hAB ⊢
  generalize expShift T ecv = b at hBd hAB ⊢
  unfold lowLinearLength u32 wrap32 SINE_SEGMENT_RELATIVE_LENGTH
  split_ifs with hlt
  · refine ⟨rfl, ?_, ?_, ?_, ?_, ?_, ?_, ?_⟩ <;> omega
  · refine ⟨rfl, ?_, ?_, ?_, ?_, ?_, ?_, ?_⟩ <;> omega

/-! ## Lemmas on `unlog` and `addLogSamples` -/

/-- The magnitude computed by `unlog`. -/
theorem unlog_magnitude_le {T : Tables} (hB : ExpBounded T 8191) (v : Nat) :
    interpolateExp T (v % 4096) / 2 ^ (v / 4096) ≤ 8191 :=
  le_trans (Nat.div_le_self _ _)
    (interpolateExp_le_8191 hB (v % 4096) (by have := Nat.mod_lt v (show 0 < 4096 by norm_num); omega))

/-- Under the 8191 bound `unlog` applies the sign to the shifted table value, without
16-bit wraparound. -/
theorem unlog_eq {T : Tables} (hB : ExpBounded T 8191) (v : Nat) (s : Sign) :
    unlog T { logValue := v, sign := s }
      = if s = Sign.POSITIVE then ((interpolateExp T (v % 4096) / 2 ^ (v / 4096) : Nat) : Int)
        else -((interpolateExp T (v % 4096) / 2 ^ (v / 4096) : Nat) : Int) := by
  have hm := unlog_magnitude_le hB v
  unfold unlog
  simp only []
  generalize interpolateExp T (v % 4096) / 2 ^ (v / 4096) = m at hm
  unfold s16
  split_ifs <;> omega

/-- A log sample of value 65535 converts to 0. -/
theorem unlog_silence {T : Tables} (hB : ExpBounded T 8191) (s : Sign) :
    unlog T { logValue := 65535, sign := s } = 0 := by
  rw [unlog_eq hB]
  have h1 : (65535 : Nat) % 4096 = 4095 := by norm_num
  have h2 : (65535 : Nat) / 4096 = 15 := by norm_num
  have hi := interpolateExp_le_8191 hB 4095 (le_refl _)
  have h3 : interpolateExp T (65535 % 4096) / 2 ^ (65535 / 4096) = 0 := by
    rw [h1, h2]
    apply Nat.div_eq_of_lt
    have : (2 : Nat) ^ 15 = 32768 := by norm_num
    omega
  rw [h3]
  split_ifs <;> simp

theorem addLogSamples_logValue (a b : LogSample) (ha : a.logValue ≤ 65535)
    (hb : b.logValue ≤ 65535) :
    (addLogSamples a b).1.logValue = min (a.logValue + b.logValue) 65535 := by
  unfold addLogSamples u32
  simp only []
  split_ifs <;> omega

theorem addLogSamples_sign (a b : LogSample) :
    (addLogSamples a b).1.sign = if a.sign = b.sign then Sign.POSITIVE else Sign.NEGATIVE := rfl

/-! ## Lemmas on PCM playback -/

theorem pitchExp_lt (T : Tables) (pitch : Nat) (hp : pitch ≤ 65535) :
    pitchExp T pitch < 2147483648 := by
  have h1 : interpolateExp T (4095 - pitch % 4096) < 65536 := u16_lt _
  have h2 : 2 ^ (pitch / 4096) ≤ 2 ^ 15 :=
    Nat.pow_le_pow_right (by norm_num) (by omega)
  have h3 : interpolateExp T (4095 - pitch % 4096) * 2 ^ (pitch / 4096) < 65536 * 2 ^ 15 :=
    Nat.mul_lt_mul_of_lt_of_le h1 h2 (by positivity)
  have h4 : (65536 : Nat) * 2 ^ 15 = 2147483648 := by norm_num
  unfold pitchExp u32
  omega

/-- The PCM sample step of a 16-bit pitch is below `2 ^ 22`. -/
theorem pcmSampleStep_lt (T : Tables) (pitch : Nat) (hp : pitch ≤ 65535) :
    pcmSampleStep T pitch < 4194304 := by
  have := pitchExp_lt T pitch hp
  unfold pcmSampleStep
  omega

/-- With `interpolateExp 4095 = 4096`, a pitch `n << 12` has `pitchExp = 4096 << n`. -/
theorem pitchExp_octave (T : Tables) (h : interpolateExp T 4095 = 4096) (n : Nat)
    (hn : n ≤ 15) : pitchExp T (n * 4096) = 4096 * 2 ^ n := by
  have h1 : n * 4096 % 4096 = 0 := by omega
  have h2 : n * 4096 / 4096 = n := by omega
  have h3 : 2 ^ n ≤ 2 ^ 15 := Nat.pow_le_pow_right (by norm_num) hn
  have h4 : (2 : Nat) ^ 15 = 32768 := by norm_num
  unfold pitchExp u32
  rw [h1, h2, Nat.sub_zero, h]
  omega

theorem demoTables_interpolateExp_4095 : interpolateExp demoTables 4095 = 4096 := by
  decide

/-- A call on an inactive oscillator changes nothing. -/
theorem generateNextSample_inactive (T : Tables) (st : LA32WaveGenerator)
    (h : st.active = false) (amp pitch cutoffVal : Nat) :
    generateNextSample T st amp pitch cutoffVal = st := by
  unfold generateNextSample
  simp [h]

theorem runSamples_inactive (T : Tables) (st : LA32WaveGenerator) (h : st.active = false)
    (inputs : List (Nat × Nat × Nat)) : runSamples T st inputs = st := by
  induction inputs with
  | nil => rfl
  | cons x rest ih =>
    obtain ⟨amp, pitch, cutoffVal⟩ := x
    show runSamples T (generateNextSample T st amp pitch cutoffVal) rest = st
    rw [generateNextSample_inactive T st h]
    exact ih

theorem runSamples_append (T : Tables) (st : LA32WaveGenerator)
    (l1 l2 : List (Nat × Nat × Nat)) :
    runSamples T st (l1 ++ l2) = runSamples T (runSamples T st l1) l2 := by
  induction l1 generalizing st with
  | nil => rfl
  | cons x rest ih =>
    obtain ⟨amp, pitch, cutoffVal⟩ := x
    show runSamples T (generateNextSample T st amp pitch cutoffVal) (rest ++ l2) = _
    rw [ih]
    rfl

/-- An inactive oscillator outputs SILENCE. -/
theorem getOutputLogSample_inactive (st : LA32WaveGenerator) (h : st.active = false)
    (first : Bool) : getOutputLogSample st first = SILENCE := by
  unfold getOutputLogSample isActive
  simp [h]

/-- A call on an active PCM oscillator is `generateNextPCMWaveLogSamples`. -/
theorem generateNextSample_pcm (T : Tables) (st : LA32WaveGenerator) (mem : Nat → Int)
    (ha : st.active = true) (hm : st.pcmWaveAddress = some mem) (amp pitch cutoffVal : Nat) :
    generateNextSample T st amp pitch cutoffVal
      = generateNextPCMWaveLogSamples T { st with amp := amp, pitch := pitch } mem := by
  unfold generateNextSample
  simp [ha, hm]

/-- What `generateNextPCMWaveLogSamples` leaves unchanged and what it caches. -/
theorem pcm_step_fields (T : Tables) (st : LA32WaveGenerator) (mem : Nat → Int) :
    (generateNextPCMWaveLogSamples T st mem).pcmWaveAddress = st.pcmWaveAddress
    ∧ (generateNextPCMWaveLogSamples T st mem).pcmWaveLength = st.pcmWaveLength
    ∧ (generateNextPCMWaveLogSamples T st mem).pcmWaveLooped = st.pcmWaveLooped
    ∧ (generateNextPCMWaveLogSamples T st mem).pcmWaveInterpolated = st.pcmWaveInterpolated
    ∧ (generateNextPCMWaveLogSamples T st mem).pcmInterpolationFactor
        = (st.wavePosition % 256) / 2
    ∧ (generateNextPCMWaveLogSamples T st mem).firstPCMLogSample
        = pcmSampleToLogSample st (mem (st.wavePosition / 256))
    ∧ (generateNextPCMWaveLogSamples T st mem).secondPCMLogSample
        = secondPCMSample st mem (st.wavePosition / 256) := by
  unfold generateNextPCMWaveLogSamples deactivate
  simp only []
  split_ifs <;> exact ⟨rfl, rfl, rfl, rfl, rfl, rfl, rfl⟩

/-- The activity flag after `generateNextPCMWaveLogSamples`. -/
theorem pcm_step_active (T : Tables) (st : LA32WaveGenerator) (mem : Nat → Int) :
    (generateNextPCMWaveLogSamples T st mem).active
      = if u32 (st.wavePosition + pcmSampleStep T st.pitch) ≥ u32 (st.pcmWaveLength * 256)
          ∧ st.pcmWaveLooped = false
        then false else st.active := by
  unfold generateNextPCMWaveLogSamples deactivate
  simp only []
  by_cases h1 : u32 (st.wavePosition + pcmSampleStep T st.pitch) ≥ u32 (st.pcmWaveLength * 256)
  · by_cases h2 : st.pcmWaveLooped = true
    · simp [h1, h2]
    · simp [h1, h2]
  · simp [h1]

/-- The position after `generateNextPCMWaveLogSamples`. -/
theorem pcm_step_wavePosition (T : Tables) (st : LA32WaveGenerator) (mem : Nat → Int) :
    (generateNextPCMWaveLogSamples T st mem).wavePosition
      = if u32 (st.wavePosition + pcmSampleStep T st.pitch) ≥ u32 (st.pcmWaveLength * 256)
          ∧ st.pcmWaveLooped = true
        then u32 (st.wavePosition + pcmSampleStep T st.pitch) - u32 (st.pcmWaveLength * 256)
        else u32 (st.wavePosition + pcmSampleStep T st.pitch) := by
  unfold generateNextPCMWaveLogSamples deactivate
  simp only []
  by_cases h1 : u32 (st.wavePosition + pcmSampleStep T st.pitch) ≥ u32 (st.pcmWaveLength * 256)
  · by_cases h2 : st.pcmWaveLooped = true
    · simp [h1, h2]
    · simp [h1, h2]
  · simp [h1]

/-- The PCM configuration is never changed by `generateNextSample`. -/
theorem generateNextSample_pcm_config (T : Tables) (st : LA32WaveGenerator) (mem : Nat → Int)
    (hm : st.pcmWaveAddress = some mem) (amp pitch cutoffVal : Nat) :
    (generateNextSample T st amp pitch cutoffVal).pcmWaveAddress = some mem
    ∧ (generateNextSample T st amp pitch cutoffVal).pcmWaveLength = st.pcmWaveLength
    ∧ (generateNextSample T st amp pitch cutoffVal).pcmWaveLooped = st.pcmWaveLooped
    ∧ (generateNextSample T st amp pitch cutoffVal).pcmWaveInterpolated
        = st.pcmWaveInterpolated := by
  by_cases ha : st.active = true
  · rw [generateNextSample_pcm T st mem ha hm]
    have h := pcm_step_fields T { st with amp := amp, pitch := pitch } mem
    exact ⟨h.1.trans hm, h.2.1, h.2.2.1, h.2.2.2.1⟩
  · have ha' : st.active = false := by simpa using ha
    rw [generateNextSample_inactive T st ha']
    exact ⟨hm, rfl, rfl, rfl⟩

theorem runSamples_pcm_config (T : Tables) (st : LA32WaveGenerator) (mem : Nat → Int)
    (hm : st.pcmWaveAddress = some mem) (inputs : List (Nat × Nat × Nat)) :
    (runSamples T st inputs).pcmWaveAddress = some mem
    ∧ (runSamples T st inputs).pcmWaveLength = st.pcmWaveLength
    ∧ (runSamples T st inputs).pcmWaveLooped = st.pcmWaveLooped
    ∧ (runSamples T st inputs).pcmWaveInterpolated = st.pcmWaveInterpolated := by
  induction inputs generalizing st with
  | nil => exact ⟨hm, rfl, rfl, rfl⟩
  | cons x rest ih =>
    obtain ⟨amp, pitch, cutoffVal⟩ := x
    have h := generateNextSample_pcm_config T st mem hm amp pitch cutoffVal
    have h2 := ih (generateNextSample T st amp pitch cutoffVal) h.1
    show (runSamples T (generateNextSample T st amp pitch cutoffVal) rest).pcmWaveAddress = _ ∧ _
    exact ⟨h2.1, h2.2.1.trans h.2.1, h2.2.2.1.trans h.2.2.1, h2.2.2.2.trans h.2.2.2⟩

/-- The activity flag after a call on an active PCM oscillator. -/
theorem generateNextSample_pcm_active (T : Tables) (st : LA32WaveGenerator) (mem : Nat → Int)
    (ha : st.active = true) (hm : st.pcmWaveAddress = some mem) (amp pitch cutoffVal : Nat) :
    (generateNextSample T st amp pitch cutoffVal).active
      = if u32 (st.wavePosition + pcmSampleStep T pitch) ≥ u32 (st.pcmWaveLength * 256)
          ∧ st.pcmWaveLooped = false
        then false else true := by
  rw [generateNextSample_pcm T st mem ha hm, pcm_step_active]
  simp only [ha]

/-- The position after a call on an active PCM oscillator. -/
theorem generateNextSample_pcm_wavePosition (T : Tables) (st : LA32WaveGenerator)
    (mem : Nat → Int) (ha : st.active = true) (hm : st.pcmWaveAddress = some mem)
    (amp pitch cutoffVal : Nat) :
    (generateNextSample T st amp pitch cutoffVal).wavePosition
      = if u32 (st.wavePosition + pcmSampleStep T pitch) ≥ u32 (st.pcmWaveLength * 256)
          ∧ st.pcmWaveLooped = true
        then u32 (st.wavePosition + pcmSampleStep T pitch) - u32 (st.pcmWaveLength * 256)
        else u32 (st.wavePosition + pcmSampleStep T pitch) := by
  rw [generateNextSample_pcm T st mem ha hm, pcm_step_wavePosition]

/-- For a non-looped PCM oscillator with fewer than `2 ^ 24` entries, one call preserves
"an active oscillator is positioned inside its table". -/
theorem nonlooped_inv_step (T : Tables) (st : LA32WaveGenerator) (mem : Nat → Int)
    (hm : st.pcmWaveAddress = some mem) (hl : st.pcmWaveLooped = false)
    (hlen : st.pcmWaveLength < 16777216) (amp pitch cutoffVal : Nat) :
    (generateNextSample T st amp pitch cutoffVal).active = true →
      (generateNextSample T st amp pitch cutoffVal).wavePosition
        < (generateNextSample T st amp pitch cutoffVal).pcmWaveLength * 256 := by
  have hcfg := generateNextSample_pcm_config T st mem hm amp pitch cutoffVal
  rw [hcfg.2.1]
  by_cases ha : st.active = true
  · rw [generateNextSample_pcm_active T st mem ha hm,
      generateNextSample_pcm_wavePosition T st mem ha hm]
    have hL : u32 (st.pcmWaveLength * 256) = st.pcmWaveLength * 256 := by
      unfold u32
      omega
    rw [hL]
    simp only [hl]
    intro h
    split_ifs at h with h1
    · simp only [Bool.false_eq_true, and_false, if_false]
      simp only [and_true, not_le] at h1
      omega
  · have ha' : st.active = false := by simpa using ha
    rw [generateNextSample_inactive T st ha']
    intro h
    exact absurd h ha

theorem nonlooped_inv_run (T : Tables) (st : LA32WaveGenerator) (mem : Nat → Int)
    (hm : st.pcmWaveAddress = some mem) (hl : st.pcmWaveLooped = false)
    (hlen : st.pcmWaveLength < 16777216)
    (hinv : st.active = true → st.wavePosition < st.pcmWaveLength * 256)
    (inputs : List (Nat × Nat × Nat)) :
    (runSamples T st inputs).active = true →
      (runSamples T st inputs).wavePosition < st.pcmWaveLength * 256 := by
  induction inputs generalizing st with
  | nil => exact hinv
  | cons x rest ih =>
    obtain ⟨amp, pitch, cutoffVal⟩ := x
    have hcfg := generateNextSample_pcm_config T st mem hm amp pitch cutoffVal
    have hstep := nonlooped_inv_step T st mem hm hl hlen amp pitch cutoffVal
    have h := ih (generateNextSample T st amp pitch cutoffVal) hcfg.1
      (hcfg.2.2.1.trans hl) (by rw [hcfg.2.1]; exact hlen) hstep
    rw [hcfg.2.1] at h
    exact h

/-- While the position stays inside the table, `n` calls with the same pitch advance an
active PCM oscillator by `n` steps and leave it active. -/
theorem runSamples_replicate_pcm (T : Tables) (mem : Nat → Int) (amp pitch cutoffVal : Nat)
    (n : Nat) (st : LA32WaveGenerator) (ha : st.active = true)
    (hm : st.pcmWaveAddress = some mem) (hlen : st.pcmWaveLength < 16777216)
    (hn : st.wavePosition + n * pcmSampleStep T pitch < st.pcmWaveLength * 256) :
    (runSamples T st (List.replicate n (amp, pitch, cutoffVal))).active = true
    ∧ (runSamples T st (List.replicate n (amp, pitch, cutoffVal))).wavePosition
        = st.wavePosition + n * pcmSampleStep T pitch := by
  induction n generalizing st with
  | zero => exact ⟨ha, by simp [runSamples]⟩
  | succ k ih =>
    have hcfg := generateNextSample_pcm_config T st mem hm amp pitch cutoffVal
    have hs : st.wavePosition + pcmSampleStep T pitch < st.pcmWaveLength * 256 := by
      have : (k + 1) * pcmSampleStep T pitch = k * pcmSampleStep T pitch + pcmSampleStep T pitch :=
        Nat.succ_mul _ _
      omega
    have hL : u32 (st.pcmWaveLength * 256) = st.pcmWaveLength * 256 := by
      unfold u32
      omega
    have hW : u32 (st.wavePosition + pcmSampleStep T pitch)
        = st.wavePosition + pcmSampleStep T pitch := by
      unfold u32
      omega
    have hnot : ¬ (st.wavePosition + pcmSampleStep T pitch ≥ st.pcmWaveLength * 256) := by omega
    have ha1 : (generateNextSample T st amp pitch cutoffVal).active = true := by
      rw [generateNextSample_pcm_active T st mem ha hm, hL, hW]
      simp [hnot]
    have hw1 : (generateNextSample T st amp pitch cutoffVal).wavePosition
        = st.wavePosition + pcmSampleStep T pitch := by
      rw [generateNextSample_pcm_wavePosition T st mem ha hm, hL, hW]
      simp [hnot]
    have h := ih (generateNextSample T st amp pitch cutoffVal) ha1 hcfg.1
      (by rw [hcfg.2.1]; exact hlen)
      (by
        rw [hcfg.2.1, hw1]
        have : (k + 1) * pcmSampleStep T pitch
            = k * pcmSampleStep T pitch + pcmSampleStep T pitch := Nat.succ_mul _ _
        omega)
    show (runSamples T (generateNextSample T st amp pitch cutoffVal)
        (List.replicate k (amp, pitch, cutoffVal))).active = true ∧ _
    refine ⟨h.1, ?_⟩
    show (runSamples T (generateNextSample T st amp pitch cutoffVal)
        (List.replicate k (amp, pitch, cutoffVal))).wavePosition = _
    rw [h.2, hw1]
    have : (k + 1) * pcmSampleStep T pitch
        = k * pcmSampleStep T pitch + pcmSampleStep T pitch := Nat.succ_mul _ _
    omega

/-- The amplitude stored by a call on an active PCM oscillator. -/
theorem generateNextSample_pcm_amp (T : Tables) (st : LA32WaveGenerator) (mem : Nat → Int)
    (ha : st.active = true) (hm : st.pcmWaveAddress = some mem) (amp pitch cutoffVal : Nat) :
    (generateNextSample T st amp pitch cutoffVal).amp = amp := by
  rw [generateNextSample_pcm T st mem ha hm]
  unfold generateNextPCMWaveLogSamples deactivate
  simp only []
  split_ifs <;> rfl

theorem pcmSampleToLogSample_congr (st st' : LA32WaveGenerator) (h : st.amp = st'.amp)
    (x : Int) : pcmSampleToLogSample st x = pcmSampleToLogSample st' x := by
  unfold pcmSampleToLogSample
  rw [h]

/-- What a call on an active PCM oscillator caches for output. -/
theorem generateNextSample_pcm_outputs (T : Tables) (st : LA32WaveGenerator) (mem : Nat → Int)
    (ha : st.active = true) (hm : st.pcmWaveAddress = some mem) (amp pitch cutoffVal : Nat) :
    (generateNextSample T st amp pitch cutoffVal).firstPCMLogSample
        = pcmSampleToLogSample (generateNextSample T st amp pitch cutoffVal)
            (mem (st.wavePosition / 256))
    ∧ (generateNextSample T st amp pitch cutoffVal).pcmInterpolationFactor
        = (st.wavePosition % 256) / 2 := by
  have hamp := generateNextSample_pcm_amp T st mem ha hm amp pitch cutoffVal
  have h := pcm_step_fields T { st with amp := amp, pitch := pitch } mem
  rw [generateNextSample_pcm T st mem ha hm] at hamp ⊢
  refine ⟨?_, h.2.2.2.2.1⟩
  rw [h.2.2.2.2.2.1]
  exact pcmSampleToLogSample_congr _ _ hamp.symm _

/-- The result of `unlog` is a `Bit16s`. -/
theorem unlog_range (T : Tables) (l : LogSample) :
    -32768 ≤ unlog T l ∧ unlog T l ≤ 32767 := by
  unfold unlog s16
  simp only []
  split_ifs <;> omega

/-- With interpolation factor 0 the mixed output of an active PCM oscillator is its first
sample. -/
theorem unlogAndMixWGOutput_pcm_factor_zero (T : Tables) (wg : LA32WaveGenerator)
    (mem : Nat → Int) (ha : wg.active = true) (hm : wg.pcmWaveAddress = some mem)
    (hf : wg.pcmInterpolationFactor = 0) :
    unlogAndMixWGOutput T wg none = unlog T wg.firstPCMLogSample := by
  have hr := unlog_range T wg.firstPCMLogSample
  unfold unlogAndMixWGOutput getOutputLogSample isActive isPCMWave getPCMInterpolationFactor
  simp only [ha, hm, hf, Option.isSome_some, Bool.not_true, Bool.false_or, if_true,
    Bool.false_eq_true, if_false, Nat.mul_zero]
  unfold u32 s16 wrap32
  simp only [Nat.zero_mod, Nat.zero_div, Nat.cast_zero, add_zero]
  omega

/-- An inactive oscillator contributes 0. -/
theorem unlogAndMixWGOutput_inactive (T : Tables) (wg : LA32WaveGenerator)
    (ha : wg.active = false) (r : Option LogSample) : unlogAndMixWGOutput T wg r = 0 := by
  unfold unlogAndMixWGOutput isActive
  simp [ha]

/-- One more call with the same arguments, taken at the end of the run. -/
theorem runSamples_replicate_succ (T : Tables) (st : LA32WaveGenerator) (n : Nat)
    (amp pitch cutoffVal : Nat) :
    runSamples T st (List.replicate (n + 1) (amp, pitch, cutoffVal))
      = generateNextSample T (runSamples T st (List.replicate n (amp, pitch, cutoffVal)))
          amp pitch cutoffVal := by
  rw [List.replicate_succ', runSamples_append]
  rfl

theorem pcmSampleStep_scenario (T : Tables) (h : interpolateExp T 4095 = 4096) :
    pcmSampleStep T 20480 = 256 := by
  have hp := pitchExp_octave T h 5 (by norm_num)
  unfold pcmSampleStep
  rw [show (20480 : Nat) = 5 * 4096 by norm_num, hp]
  norm_num

/-- The scenario oscillator after `k <= 3` calls: active, at position `256 * k`. -/
theorem scenario_first_calls (T : Tables) (h : interpolateExp T 4095 = 4096)
    (st0 : LA32WaveGenerator) (amp cutoffVal k : Nat) (hk : k ≤ 3) :
    (runSamples T (initPCM st0 (some (pcmTableView scenarioTable)) 4 false true)
        (List.replicate k (amp, 20480, cutoffVal))).active = true
    ∧ (runSamples T (initPCM st0 (some (pcmTableView scenarioTable)) 4 false true)
        (List.replicate k (amp, 20480, cutoffVal))).wavePosition = k * 256 := by
  have hrun := runSamples_replicate_pcm T (pcmTableView scenarioTable) amp 20480 cutoffVal k
    (initPCM st0 (some (pcmTableView scenarioTable)) 4 false true) rfl rfl
    (by show (4 : Nat) < 16777216; norm_num)
    (by
      rw [pcmSampleStep_scenario T h]
      show 0 + k * 256 < 4 * 256
      omega)
  refine ⟨hrun.1, ?_⟩
  rw [hrun.2, pcmSampleStep_scenario T h]
  show 0 + k * 256 = k * 256
  omega

/-- The scenario oscillator is inactive after 4 calls and stays so. -/
theorem scenario_later_calls (T : Tables) (h : interpolateExp T 4095 = 4096)
    (st0 : LA32WaveGenerator) (amp cutoffVal k : Nat) (hk : 4 ≤ k) :
    (runSamples T (initPCM st0 (some (pcmTableView scenarioTable)) 4 false true)
        (List.replicate k (amp, 20480, cutoffVal))).active = false := by
  have h3 := scenario_first_calls T h st0 amp cutoffVal 3 (le_refl _)
  have hcfg := runSamples_pcm_config T
    (initPCM st0 (some (pcmTableView scenarioTable)) 4 false true)
    (pcmTableView scenarioTable) rfl (List.replicate 3 (amp, 20480, cutoffVal))
  have h4 : (runSamples T (initPCM st0 (some (pcmTableView scenarioTable)) 4 false true)
      (List.replicate 4 (amp, 20480, cutoffVal))).active = false := by
    rw [runSamples_replicate_succ, generateNextSample_pcm_active T _ _ h3.1 hcfg.1]
    apply if_pos
    refine ⟨?_, hcfg.2.2.1⟩
    rw [h3.2, pcmSampleStep_scenario T h, hcfg.2.1]
    show u32 (3 * 256 + 256) ≥ u32 (4 * 256)
    unfold u32
    norm_num
  obtain ⟨j, rfl⟩ : ∃ j, k = 4 + j := ⟨k - 4, by omega⟩
  rw [List.replicate_add, runSamples_append, runSamples_inactive T _ h4]
  exact h4

/-- A looped PCM oscillator that is active stays active through any calls. -/
theorem looped_active_run (T : Tables) (st : LA32WaveGenerator) (mem : Nat → Int)
    (ha : st.active = true) (hm : st.pcmWaveAddress = some mem)
    (hl : st.pcmWaveLooped = true) (inputs : List (Nat × Nat × Nat)) :
    (runSamples T st inputs).active = true := by
  induction inputs generalizing st with
  | nil => exact ha
  | cons x rest ih =>
    obtain ⟨amp, pitch, cutoffVal⟩ := x
    have hcfg := generateNextSample_pcm_config T st mem hm amp pitch cutoffVal
    have ha1 : (generateNextSample T st amp pitch cutoffVal).active = true := by
      rw [generateNextSample_pcm_active T st mem ha hm]
      simp [hl]
    exact ih (generateNextSample T st amp pitch cutoffVal) ha1 hcfg.1 (hcfg.2.2.1.trans hl)

/-! ## Lemmas on the resonance wave -/

/-- Where the exact sum of the terms is at least `1 << 12` and nothing exceeds 32 bits, the
stored resonance log value is the saturated difference. -/
theorem resonance_logValue_of_ge (T : Tables) (st : LA32WaveGenerator)
    (h1 : 4096 ≤ resonanceLogSumExact T st) (h2 : resonanceLogSumExact T st < 4294967296)
    (h3 : (st.resonanceSinePosition / 16) * decayFactor st < 4294967296) :
    (generateNextResonanceWaveLogSample T st).resonanceLogSample.logValue
      = min (resonanceLogSumExact T st - 4096) 65535 := by
  unfold resonanceLogSumExact at h1 h2 ⊢
  unfold generateNextResonanceWaveLogSample resonanceDecayTerm
  simp only []
  generalize resonanceTableTerm T st = a at h1 h2 ⊢
  generalize resonanceWindowTerm T st = w at h1 h2 ⊢
  generalize resonanceCutoffTerm T st = c at h1 h2 ⊢
  generalize (st.resonanceSinePosition / 16) * decayFactor st = q at h1 h2 h3 ⊢
  unfold u32 wrap32
  split_ifs <;> omega

/-! ## Lemmas on the voice pair -/

/-- A modulating sample of value 65535 silences the contribution. -/
theorem unlogAndMixWGOutput_silent_modulator (T : Tables) (wg : LA32WaveGenerator)
    (r : LogSample) (hr : r.logValue = 65535) : unlogAndMixWGOutput T wg (some r) = 0 := by
  unfold unlogAndMixWGOutput SILENCE
  simp [hr]

/-! ## Lemmas on the synth path of `generateNextSample` -/

/-- A call on an active synth oscillator: store the inputs, compute the log samples, advance
the position. -/
theorem generateNextSample_synth (T : Tables) (st : LA32WaveGenerator)
    (ha : st.active = true) (hs : st.pcmWaveAddress = none) (amp pitch cutoffVal : Nat) :
    generateNextSample T st amp pitch cutoffVal
      = advancePosition T (generateSynthLogSamples T
          { st with amp := amp, pitch := pitch,
                    cutoffVal := if cutoffVal > MAX_CUTOFF_VALUE then MAX_CUTOFF_VALUE
                                 else cutoffVal }) := by
  unfold generateNextSample generateSynthLogSamples
  simp only [ha, hs, Bool.not_true, Bool.false_eq_true, if_false]

/-- `generateSynthLogSamples` changes the two cached log samples only. -/
theorem generateSynthLogSamples_eq (T : Tables) (st : LA32WaveGenerator) :
    generateSynthLogSamples T st
      = { st with
          squareLogSample := (generateSynthLogSamples T st).squareLogSample
          resonanceLogSample := (generateSynthLogSamples T st).resonanceLogSample } := by
  unfold generateSynthLogSamples generateNextResonanceWaveLogSample
    generateNextSquareWaveLogSample
  simp only []
  split_ifs <;> rfl

/-- `advancePosition` changes the position and the four fields derived from it only. -/
theorem advancePosition_eq (T : Tables) (st : LA32WaveGenerator) :
    advancePosition T st
      = { st with
          wavePosition := u32 (st.wavePosition + getSampleStep T st.pitch)
            % (4 * SINE_SEGMENT_RELATIVE_LENGTH)
          squareWavePosition := (advancePosition T st).squareWavePosition
          phase := (advancePosition T st).phase
          resonanceSinePosition := (advancePosition T st).resonanceSinePosition
          resonancePhase := (advancePosition T st).resonancePhase } := by
  unfold advancePosition computePositions
  simp only []
  split_ifs <;> rfl

/-! ## Lemmas on the square wave -/

/-- The table term of the square wave is the `logsin9` entry at `squareTableIndex`, and 0
where no entry is read. -/
theorem squareTableTerm_eq_index (T : Tables) (phase : Phase) (squareWavePosition : Nat) :
    squareTableTerm T phase squareWavePosition
      = match squareTableIndex phase squareWavePosition with
        | some i => T.logsin9 i
        | none => 0 := by
  cases phase <;> rfl

theorem squareTableTerm_le {T : Tables} (hL : LogsinBounded T) (phase : Phase)
    (squareWavePosition : Nat) : squareTableTerm T phase squareWavePosition ≤ 65535 := by
  have h := Nat.mod_lt (squareWavePosition / 512) (show 0 < 512 by norm_num)
  cases phase
  · exact hL _ h
  · exact Nat.zero_le _
  · exact hL _ (by omega)
  · exact hL _ h
  · exact Nat.zero_le _
  · exact hL _ (by omega)

/-- The stored square log value as a saturated exact sum. -/
theorem square_logValue_eq {T : Tables} (hL : LogsinBounded T) (st : LA32WaveGenerator)
    (hamp : st.amp < 4294967296) (hc : st.cutoffVal ≤ MAX_CUTOFF_VALUE) :
    4 * squareTableTerm T st.phase st.squareWavePosition + st.amp / 1024
        + squareCutoffBoost st.cutoffVal < 4294967296
    ∧ (generateNextSquareWaveLogSample T st).squareLogSample.logValue
        = min 65535 (4 * squareTableTerm T st.phase st.squareWavePosition + st.amp / 1024
            + squareCutoffBoost st.cutoffVal) := by
  have ht := squareTableTerm_le hL st.phase st.squareWavePosition
  unfold generateNextSquareWaveLogSample squareCutoffBoost
  simp only []
  generalize squareTableTerm T st.phase st.squareWavePosition = t at ht ⊢
  unfold MAX_CUTOFF_VALUE at hc
  unfold u32 MIDDLE_CUTOFF_VALUE
  constructor
  · split_ifs <;> omega
  · split_ifs <;> omega

/-! ## Lemmas on the monotonicity of `unlog` -/

/-- The magnitude computed by `unlog` does not grow with the log value. -/
theorem unlog_magnitude_antitone {T : Tables} (hB : ExpBounded T 4095) (hM : ExpMonotone T)
    (a b : Nat) (hab : a ≤ b) :
    interpolateExp T (b % 4096) / 2 ^ (b / 4096)
      ≤ interpolateExp T (a % 4096) / 2 ^ (a / 4096) := by
  have hB8 : ExpBounded T 8191 := hB.mono (by norm_num)
  have ha4 := Nat.mod_lt a (show 0 < 4096 by norm_num)
  have hb4 := Nat.mod_lt b (show 0 < 4096 by norm_num)
  by_cases hq : a / 4096 = b / 4096
  · rw [hq]
    apply Nat.div_le_div_right
    exact interpolateExp_antitone hB8 hM _ _ (by omega) (by omega)
  · have hlt : a / 4096 + 1 ≤ b / 4096 := by
      have : a / 4096 ≤ b / 4096 := Nat.div_le_div_right hab
      omega
    have hhi := interpolateExp_le_8191 hB8 (b % 4096) (by omega)
    have hlo := interpolateExp_ge_4096 hB (a % 4096) (by omega)
    calc interpolateExp T (b % 4096) / 2 ^ (b / 4096)
        ≤ 8191 / 2 ^ (b / 4096) := Nat.div_le_div_right hhi
      _ ≤ 8191 / 2 ^ (a / 4096 + 1) :=
          Nat.div_le_div_left (Nat.pow_le_pow_right (by norm_num) hlt) (by positivity)
      _ = 8191 / 2 / 2 ^ (a / 4096) := by
          rw [pow_succ, Nat.mul_comm, Nat.div_div_eq_div_mul]
      _ ≤ interpolateExp T (a % 4096) / 2 ^ (a / 4096) :=
          Nat.div_le_div_right (by omega)

/-! ## Lemmas on the mixed output -/

/-- Under the 8191 bound every `unlog` result has magnitude at most 8191. -/
theorem unlog_abs_le {T : Tables} (hB : ExpBounded T 8191) (l : LogSample) :
    -8191 ≤ unlog T l ∧ unlog T l ≤ 8191 := by
  cases l with
  | mk v s =>
    have hm := unlog_magnitude_le hB v
    rw [unlog_eq hB v s]
    generalize interpolateExp T (v % 4096) / 2 ^ (v / 4096) = m at hm
    cases s <;> simp <;> omega

/-- An unsigned 32-bit product with a converted signed factor is the wrapped signed
product. -/
theorem u32_wrap32_mul (d : Int) (k : Nat) : u32 (wrap32 d * k) = wrap32 (d * (k : Int)) := by
  unfold u32 wrap32
  have h1 : (0 : Int) ≤ d % 4294967296 := Int.emod_nonneg _ (by norm_num)
  have h3 : (((d % 4294967296).toNat * k % 4294967296 : Nat) : Int)
      = (d * (k : Int)) % 4294967296 := by
    push_cast
    rw [Int.toNat_of_nonneg h1, Int.mul_emod, Int.emod_emod_of_dvd _ (dvd_refl _),
      ← Int.mul_emod]
  have h4 : (0 : Int) ≤ (d * (k : Int)) % 4294967296 := Int.emod_nonneg _ (by norm_num)
  omega

/-- The 32-bit unsigned evaluation of the PCM interpolation, truncated to 16 bits, is the
signed linear interpolation with floor division. -/
theorem pcm_interpolation_arith (f s : Int) (k : Nat) (hf1 : -8191 ≤ f) (hf2 : f ≤ 8191)
    (hs1 : -8191 ≤ s) (hs2 : s ≤ 8191) (hk : k ≤ 127) :
    s16 ((wrap32 (f + ((u32 (wrap32 (s - f) * k) / 128 : Nat) : Int)) : Nat) : Int)
        = f + (s - f) * (k : Int) / 128
    ∧ min f s ≤ f + (s - f) * (k : Int) / 128
    ∧ f + (s - f) * (k : Int) / 128 ≤ max f s := by
  rw [u32_wrap32_mul]
  have hk0 : (0 : Int) ≤ (k : Int) := Int.natCast_nonneg k
  have hk1 : (k : Int) ≤ 127 := by exact_mod_cast hk
  have hp : (0 ≤ s - f → 0 ≤ (s - f) * (k : Int) ∧ (s - f) * (k : Int) ≤ (s - f) * 127)
      ∧ (s - f ≤ 0 → (s - f) * (k : Int) ≤ 0 ∧ (s - f) * 127 ≤ (s - f) * (k : Int)) := by
    constructor
    · intro h
      exact ⟨mul_nonneg h hk0, mul_le_mul_of_nonneg_left hk1 h⟩
    · intro h
      exact ⟨mul_nonpos_of_nonpos_of_nonneg h hk0, mul_le_mul_of_nonpos_left hk1 h⟩
  generalize (s - f) * (k : Int) = p at hp ⊢
  unfold s16 wrap32
  refine ⟨?_, ?_, ?_⟩ <;> omega

/-- The mixed output of an active PCM oscillator without ring modulation. -/
theorem unlogAndMixWGOutput_pcm (T : Tables) (wg : LA32WaveGenerator) (mem : Nat → Int)
    (ha : wg.active = true) (hm : wg.pcmWaveAddress = some mem) :
    unlogAndMixWGOutput T wg none
      = s16 ((wrap32 (unlog T wg.firstPCMLogSample
          + ((u32 (wrap32 (unlog T wg.secondPCMLogSample - unlog T wg.firstPCMLogSample)
              * wg.pcmInterpolationFactor) / 128 : Nat) : Int)) : Nat) : Int) := by
  unfold unlogAndMixWGOutput getOutputLogSample isActive isPCMWave getPCMInterpolationFactor
  simp only [ha, hm, Option.isSome_some, Bool.not_true, Bool.false_or, if_true,
    Bool.false_eq_true, if_false]

/-- The mixed output of an active synth oscillator without ring modulation. -/
theorem unlogAndMixWGOutput_synth (T : Tables) (wg : LA32WaveGenerator)
    (ha : wg.active = true) (hs : wg.pcmWaveAddress = none) :
    unlogAndMixWGOutput T wg none
      = s16 (unlog T wg.squareLogSample + unlog T wg.resonanceLogSample) := by
  unfold unlogAndMixWGOutput getOutputLogSample isActive isPCMWave
  simp only [ha, hs, Option.isSome_none, Bool.not_true, Bool.false_or, if_true,
    Bool.false_eq_true, if_false]

/-- The magnitude of the dry contribution of one oscillator. -/
theorem unlogAndMixWGOutput_abs_le {T : Tables} (hB : ExpBounded T 8191)
    (wg : LA32WaveGenerator) (hf : wg.pcmInterpolationFactor ≤ 127) :
    (-16382 ≤ unlogAndMixWGOutput T wg none ∧ unlogAndMixWGOutput T wg none ≤ 16382)
    ∧ (isPCMWave wg = true →
        -8191 ≤ unlogAndMixWGOutput T wg none ∧ unlogAndMixWGOutput T wg none ≤ 8191) := by
  by_cases ha : wg.active = true
  · cases hm : wg.pcmWaveAddress with
    | some mem =>
      have h1 := unlog_abs_le hB wg.firstPCMLogSample
      have h2 := unlog_abs_le hB wg.secondPCMLogSample
      have h := pcm_interpolation_arith (unlog T wg.firstPCMLogSample)
        (unlog T wg.secondPCMLogSample) wg.pcmInterpolationFactor h1.1 h1.2 h2.1 h2.2 hf
      rw [unlogAndMixWGOutput_pcm T wg mem ha hm, h.1]
      refine ⟨by omega, fun _ => by omega⟩
    | none =>
      have h1 := unlog_abs_le hB wg.squareLogSample
      have h2 := unlog_abs_le hB wg.resonanceLogSample
      rw [unlogAndMixWGOutput_synth T wg ha hm]
      unfold s16 isPCMWave
      rw [hm]
      refine ⟨by omega, fun h => by simp at h⟩
  · have ha' : wg.active = false := by simpa using ha
    rw [unlogAndMixWGOutput_inactive T wg ha' none]
    exact ⟨by omega, fun _ => by omega⟩

/-! ## Lemmas on segment resolution -/

theorem computePositions_segment (st : LA32WaveGenerator) (hll lll rwlf : Nat)
    (hP : (st.wavePosition / 256) * (rwlf / 16) < 4 * 262144 + hll + lll)
    (h32 : 4 * 262144 + hll + lll ≤ 4294967296) :
    segmentStart hll lll (computePositions st hll lll rwlf).phase
        ≤ (st.wavePosition / 256) * (rwlf / 16)
    ∧ (st.wavePosition / 256) * (rwlf / 16)
        < segmentStart hll lll (computePositions st hll lll rwlf).phase
          + segmentLength hll lll (computePositions st hll lll rwlf).phase
    ∧ (computePositions st hll lll rwlf).squareWavePosition
        = (st.wavePosition / 256) * (rwlf / 16)
          - segmentStart hll lll (computePositions st hll lll rwlf).phase := by
  unfold computePositions
  have hu : u32 ((st.wavePosition / 256) * (rwlf / 16))
      = (st.wavePosition / 256) * (rwlf / 16) := by
    unfold u32
    omega
  simp only [hu]
  generalize (st.wavePosition / 256) * (rwlf / 16) = P at hP ⊢
  unfold SINE_SEGMENT_RELATIVE_LENGTH
  clear hu
  split_ifs <;> simp only [segmentStart, segmentLength] <;> refine ⟨?_, ?_, ?_⟩ <;>
    first | omega | trivial

theorem segment_unique (hll lll P : Nat) (ph1 ph2 : Phase)
    (h1 : segmentStart hll lll ph1 ≤ P ∧ P < segmentStart hll lll ph1 + segmentLength hll lll ph1)
    (h2 : segmentStart hll lll ph2 ≤ P ∧ P < segmentStart hll lll ph2 + segmentLength hll lll ph2) :
    ph1 = ph2 := by
  cases ph1 <;> cases ph2 <;> simp only [segmentStart, segmentLength] at h1 h2 <;>
    first | rfl | omega

theorem scaled_position_lt (w rwlf : Nat) (hw : w < 1048576) (hr : 0 < rwlf) :
    (w / 256) * (rwlf / 16) < rwlf * 256 := by
  have h1 : (w / 256) * (rwlf / 16) ≤ 4095 * (rwlf / 16) :=
    Nat.mul_le_mul_right _ (by omega)
  omega

/-! ## Lemmas on a synth oscillator under constant input -/

/-- A synth call changes only the fields collected by `withDynamics`, and stores the `amp`
and `pitch` arguments. -/
theorem generateNextSample_synth_frame (T : Tables) (st : LA32WaveGenerator)
    (ha : st.active = true) (hs : st.pcmWaveAddress = none) (amp pitch cutoffVal : Nat) :
    generateNextSample T st amp pitch cutoffVal
      = withDynamics st (generateNextSample T st amp pitch cutoffVal) := by
  rw [generateNextSample_synth T st ha hs, advancePosition_eq, generateSynthLogSamples_eq]
  rfl

/-- A synth call does not read the previous inputs and cached log samples. -/
theorem generateNextSample_synth_congr (T : Tables) (st : LA32WaveGenerator)
    (ha : st.active = true) (hs : st.pcmWaveAddress = none) (amp0 pitch0 cutoffVal0 : Nat)
    (x y : LogSample) (amp pitch cutoffVal : Nat) :
    generateNextSample T
        { st with amp := amp0, pitch := pitch0, cutoffVal := cutoffVal0,
                  squareLogSample := x, resonanceLogSample := y } amp pitch cutoffVal
      = generateNextSample T st amp pitch cutoffVal := by
  have h1 := generateNextSample_synth T
    { st with amp := amp0, pitch := pitch0, cutoffVal := cutoffVal0,
              squareLogSample := x, resonanceLogSample := y } ha hs amp pitch cutoffVal
  rw [h1, generateNextSample_synth T st ha hs]
  congr 1

/-- The position after `advancePosition`; at position 0 the four derived fields take the
values that `initSynth` stores. -/
theorem advancePosition_origin (T : Tables) (st : LA32WaveGenerator) :
    (advancePosition T st).wavePosition
        = u32 (st.wavePosition + getSampleStep T st.pitch) % 1048576
    ∧ (u32 (st.wavePosition + getSampleStep T st.pitch) % 1048576 = 0 →
        (advancePosition T st).squareWavePosition = 0
        ∧ (advancePosition T st).phase = Phase.POSITIVE_RISING_SINE_SEGMENT
        ∧ (advancePosition T st).resonanceSinePosition = 0
        ∧ (advancePosition T st).resonancePhase
            = ResonancePhase.POSITIVE_RISING_RESONANCE_SINE_SEGMENT) := by
  constructor
  · rw [advancePosition_eq]
    rfl
  · intro h0
    unfold advancePosition computePositions
    have hu : u32 0 = 0 := rfl
    simp only [SINE_SEGMENT_RELATIVE_LENGTH, Nat.reduceMul, h0, Nat.zero_div, Nat.zero_mul, hu,
      Nat.ofNat_pos, if_true]
    exact ⟨trivial, trivial, trivial, rfl⟩

/-- The position written by a synth call, and the derived fields when it is 0. -/
theorem generateNextSample_synth_position (T : Tables) (st : LA32WaveGenerator)
    (ha : st.active = true) (hs : st.pcmWaveAddress = none) (amp pitch cutoffVal : Nat) :
    (generateNextSample T st amp pitch cutoffVal).wavePosition
        = u32 (st.wavePosition + getSampleStep T pitch) % 1048576
    ∧ (u32 (st.wavePosition + getSampleStep T pitch) % 1048576 = 0 →
        (generateNextSample T st amp pitch cutoffVal).squareWavePosition = 0
        ∧ (generateNextSample T st amp pitch cutoffVal).phase
            = Phase.POSITIVE_RISING_SINE_SEGMENT
        ∧ (generateNextSample T st amp pitch cutoffVal).resonanceSinePosition = 0
        ∧ (generateNextSample T st amp pitch cutoffVal).resonancePhase
            = ResonancePhase.POSITIVE_RISING_RESONANCE_SINE_SEGMENT) := by
  rw [generateNextSample_synth T st ha hs]
  have h := advancePosition_origin T (generateSynthLogSamples T
    { st with amp := amp, pitch := pitch,
              cutoffVal := if cutoffVal > MAX_CUTOFF_VALUE then MAX_CUTOFF_VALUE
                           else cutoffVal })
  have hg := generateSynthLogSamples_eq T
    { st with amp := amp, pitch := pitch,
              cutoffVal := if cutoffVal > MAX_CUTOFF_VALUE then MAX_CUTOFF_VALUE
                           else cutoffVal }
  have hw := congrArg LA32WaveGenerator.wavePosition hg
  have hp := congrArg LA32WaveGenerator.pitch hg
  change _ = st.wavePosition at hw
  change _ = pitch at hp
  rw [hw, hp] at h
  exact h

theorem period_mul (s g : Nat) (h1 : g ∣ s) (h2 : g ∣ 1048576) :
    (1048576 / g * s) % 1048576 = 0 := by
  obtain ⟨a, rfl⟩ := h1
  rw [← Nat.mul_assoc, Nat.div_mul_cancel h2]
  exact Nat.mul_mod_right _ _

theorem position_step (n s : Nat) :
    u32 ((n * s) % 1048576 + s) % 1048576 = ((n + 1) * s) % 1048576 := by
  have h : (n + 1) * s = n * s + s := by ring
  rw [h]
  generalize n * s = m
  unfold u32
  omega

/-- The invariants of a synth oscillator driven with constant input: it stays an active
synth oscillator, only the fields of `withDynamics` ever change, the position after `n`
calls is `n * step` modulo the cycle length, and whenever a call leaves the position at 0
the derived fields are those stored by `initSynth`. -/
theorem synth_run_inv (T : Tables) (st0 : LA32WaveGenerator) (sw : Bool)
    (pw res amp pitch cutoffVal : Nat) (n : Nat) :
    (runSamples T (initSynth T st0 sw pw res)
        (List.replicate n (amp, pitch, cutoffVal))).active = true
    ∧ (runSamples T (initSynth T st0 sw pw res)
        (List.replicate n (amp, pitch, cutoffVal))).pcmWaveAddress = none
    ∧ runSamples T (initSynth T st0 sw pw res) (List.replicate n (amp, pitch, cutoffVal))
        = withDynamics (initSynth T st0 sw pw res)
            (runSamples T (initSynth T st0 sw pw res)
              (List.replicate n (amp, pitch, cutoffVal)))
    ∧ (runSamples T (initSynth T st0 sw pw res)
        (List.replicate n (amp, pitch, cutoffVal))).wavePosition
        = (n * getSampleStep T pitch) % 1048576
    ∧ ((runSamples T (initSynth T st0 sw pw res)
          (List.replicate n (amp, pitch, cutoffVal))).wavePosition = 0 →
        (runSamples T (initSynth T st0 sw pw res)
          (List.replicate n (amp, pitch, cutoffVal))).squareWavePosition = 0
        ∧ (runSamples T (initSynth T st0 sw pw res)
            (List.replicate n (amp, pitch, cutoffVal))).phase
            = Phase.POSITIVE_RISING_SINE_SEGMENT
        ∧ (runSamples T (initSynth T st0 sw pw res)
            (List.replicate n (amp, pitch, cutoffVal))).resonanceSinePosition = 0
        ∧ (runSamples T (initSynth T st0 sw pw res)
            (List.replicate n (amp, pitch, cutoffVal))).resonancePhase
            = ResonancePhase.POSITIVE_RISING_RESONANCE_SINE_SEGMENT) := by
  induction n with
  | zero =>
    refine ⟨rfl, rfl, rfl, ?_, fun _ => ⟨rfl, rfl, rfl, rfl⟩⟩
    rw [Nat.zero_mul]
    rfl
  | succ n ih =>
    obtain ⟨ha, hs, hf, hw, -⟩ := ih
    rw [runSamples_replicate_succ]
    generalize runSamples T (initSynth T st0 sw pw res)
      (List.replicate n (amp, pitch, cutoffVal)) = Sn at ha hs hf hw
    have hfr := generateNextSample_synth_frame T Sn ha hs amp pitch cutoffVal
    have hpos := generateNextSample_synth_position T Sn ha hs amp pitch cutoffVal
    rw [hw, position_step] at hpos
    refine ⟨?_, ?_, ?_, hpos.1, ?_⟩
    · exact (congrArg LA32WaveGenerator.active hfr).trans ha
    · exact (congrArg LA32WaveGenerator.pcmWaveAddress hfr).trans hs
    · exact hfr.trans
        ((congrArg (fun z => withDynamics z (generateNextSample T Sn amp pitch cutoffVal))
          hf).trans rfl)
    · intro h0
      exact hpos.2 (hpos.1.symm.trans h0)

/-- The state of a synth oscillator under constant input repeats with the period
`2^20 / gcd(step, 2^20)`, from the first call on. -/
theorem synth_run_periodic (T : Tables) (st0 : LA32WaveGenerator) (sw : Bool)
    (pw res amp pitch cutoffVal : Nat) (k : Nat) (hk : 1 ≤ k) :
    runSamples T (initSynth T st0 sw pw res)
        (List.replicate (k + 1048576 / Nat.gcd (getSampleStep T pitch) 1048576)
          (amp, pitch, cutoffVal))
      = runSamples T (initSynth T st0 sw pw res) (List.replicate k (amp, pitch, cutoffVal)) := by
  have hg1 : Nat.gcd (getSampleStep T pitch) 1048576 ∣ getSampleStep T pitch :=
    Nat.gcd_dvd_left _ _
  have hg2 : Nat.gcd (getSampleStep T pitch) 1048576 ∣ 1048576 := Nat.gcd_dvd_right _ _
  have hmul := period_mul _ _ hg1 hg2
  generalize 1048576 / Nat.gcd (getSampleStep T pitch) 1048576 = P at hmul
  induction k, hk using Nat.le_induction with
  | base =>
    obtain ⟨-, -, hf, hw, hz⟩ := synth_run_inv T st0 sw pw res amp pitch cutoffVal P
    rw [hmul] at hw
    obtain ⟨hsq, hph, hrs, hrp⟩ := hz hw
    rw [Nat.add_comm 1 P, runSamples_replicate_succ, runSamples_replicate_succ]
    generalize runSamples T (initSynth T st0 sw pw res)
      (List.replicate P (amp, pitch, cutoffVal)) = SP at hf hw hsq hph hrs hrp
    have h5 : SP = { initSynth T st0 sw pw res with
        amp := SP.amp, pitch := SP.pitch, cutoffVal := SP.cutoffVal,
        squareLogSample := SP.squareLogSample,
        resonanceLogSample := SP.resonanceLogSample } := by
      refine hf.trans ?_
      unfold withDynamics
      rw [hw, hsq, hph, hrs, hrp]
      rfl
    exact (congrArg (fun z => generateNextSample T z amp pitch cutoffVal) h5).trans
      (generateNextSample_synth_congr T (initSynth T st0 sw pw res) rfl rfl
        SP.amp SP.pitch SP.cutoffVal SP.squareLogSample SP.resonanceLogSample
        amp pitch cutoffVal)
  | succ k _ ih =>
    rw [Nat.add_right_comm k 1 P, runSamples_replicate_succ, runSamples_replicate_succ, ih]

/-- The log samples output by an active synth oscillator are the two cached ones. -/
theorem getOutputLogSample_synth (st : LA32WaveGenerator) (ha : st.active = true)
    (hs : st.pcmWaveAddress = none) :
    getOutputLogSample st true = st.squareLogSample
    ∧ getOutputLogSample st false = st.resonanceLogSample := by
  unfold getOutputLogSample isActive isPCMWave
  simp [ha, hs]

/-! ## Claims -/

/-- C1. Phase cycle length invariant: for a non-decreasing `exp9` with entries in `[0, 4095]`,
every `pulseWidth` in `0..255` and every stored `cutoffVal <= 240 << 18`, the values computed
in `advancePosition` equal their exact-integer readings (so no subtraction wraps), both linear
lengths are non-negative, and `highLinearLength + lowLinearLength + 4 * 2^18` equals
`getResonanceWaveLengthFactor(effectiveCutoffValue) << 8`. -/
theorem phase_cycle_length_invariant (T : Tables) (hB : ExpBounded T 4095)
    (hM : ExpMonotone T) (pulseWidth cutoffVal : Nat) (hpw : pulseWidth ≤ 255)
    (hc : cutoffVal ≤ MAX_CUTOFF_VALUE) :
    (getResonanceWaveLengthFactor T (effectiveCutoffValue cutoffVal) : Int)
        = resonanceWaveLengthFactorExact T (effectiveCutoffValue cutoffVal)
    ∧ (getHighLinearLength T pulseWidth (effectiveCutoffValue cutoffVal) : Int)
        = highLinearLengthExact T pulseWidth (effectiveCutoffValue cutoffVal)
    ∧ 0 ≤ highLinearLengthExact T pulseWidth (effectiveCutoffValue cutoffVal)
    ∧ (lowLinearLength (getResonanceWaveLengthFactor T (effectiveCutoffValue cutoffVal))
          (getHighLinearLength T pulseWidth (effectiveCutoffValue cutoffVal)) : Int)
        = lowLinearLengthExact T pulseWidth (effectiveCutoffValue cutoffVal)
    ∧ 0 ≤ lowLinearLengthExact T pulseWidth (effectiveCutoffValue cutoffVal)
    ∧ getResonanceWaveLengthFactor T (effectiveCutoffValue cutoffVal) * 256 < 4294967296
    ∧ 4 * 262144 ≤ getResonanceWaveLengthFactor T (effectiveCutoffValue cutoffVal) * 256
    ∧ getHighLinearLength T pulseWidth (effectiveCutoffValue cutoffVal)
        + lowLinearLength (getResonanceWaveLengthFactor T (effectiveCutoffValue cutoffVal))
            (getHighLinearLength T pulseWidth (effectiveCutoffValue cutoffVal)) + 4 * 262144
        = getResonanceWaveLengthFactor T (effectiveCutoffValue cutoffVal) * 256 :=
  linearLengths_exact hB hM pulseWidth _ hpw (effectiveCutoffValue_le cutoffVal hc)

/-- Witness of C1 on the concrete tables, `pulseWidth = 200` and the maximal cutoff. -/
theorem phase_cycle_length_invariant_witness :
    ExpBounded demoTables 4095 ∧ ExpMonotone demoTables ∧ (200 : Nat) ≤ 255
    ∧ (62914560 : Nat) ≤ MAX_CUTOFF_VALUE
    ∧ getHighLinearLength demoTables 200 (effectiveCutoffValue 62914560)
        + lowLinearLength (getResonanceWaveLengthFactor demoTables (effectiveCutoffValue 62914560))
            (getHighLinearLength demoTables 200 (effectiveCutoffValue 62914560)) + 4 * 262144
        = getResonanceWaveLengthFactor demoTables (effectiveCutoffValue 62914560) * 256 :=
  ⟨demoTables_bounded, demoTables_monotone, by norm_num, le_refl _,
    (phase_cycle_length_invariant demoTables demoTables_bounded demoTables_monotone 200 62914560
      (by norm_num) (le_refl _)).2.2.2.2.2.2.2⟩

/-- C6. `addLogSamples` is saturating log-domain multiplication: for log samples with
`logValue` in `0..65535`, the sum does not wrap 32 bits, the new
`logValue` is `min (a0.logValue + b.logValue) 65535`, the new sign is POSITIVE exactly when
the two signs agree and NEGATIVE otherwise, and the second sample is unchanged. -/
theorem addLogSamples_saturating (a b : LogSample) (ha : a.logValue ≤ 65535)
    (hb : b.logValue ≤ 65535) :
    a.logValue + b.logValue < 4294967296
    ∧ (addLogSamples a b).1.logValue = min (a.logValue + b.logValue) 65535
    ∧ ((addLogSamples a b).1.sign = Sign.POSITIVE ↔ a.sign = b.sign)
    ∧ ((addLogSamples a b).1.sign = Sign.NEGATIVE ↔ a.sign ≠ b.sign)
    ∧ (addLogSamples a b).2 = b := by
  refine ⟨by omega, addLogSamples_logValue a b ha hb, ?_, ?_, rfl⟩
  · rw [addLogSamples_sign]
    split_ifs with h <;> simp [h]
  · rw [addLogSamples_sign]
    split_ifs with h <;> simp [h]

/-- Witness of C6: a saturating sum of a positive and a negative sample. -/
theorem addLogSamples_saturating_witness :
    (60000 : Nat) ≤ 65535 ∧ (7000 : Nat) ≤ 65535
    ∧ (addLogSamples { logValue := 60000, sign := Sign.POSITIVE }
        { logValue := 7000, sign := Sign.NEGATIVE }).1.logValue = min (60000 + 7000) 65535
    ∧ ((addLogSamples { logValue := 60000, sign := Sign.POSITIVE }
        { logValue := 7000, sign := Sign.NEGATIVE }).1.sign = Sign.NEGATIVE
          ↔ Sign.POSITIVE ≠ Sign.NEGATIVE) :=
  have h := addLogSamples_saturating { logValue := 60000, sign := Sign.POSITIVE }
    { logValue := 7000, sign := Sign.NEGATIVE } (by norm_num) (by norm_num)
  ⟨by norm_num, by norm_num, h.2.1, h.2.2.2.1⟩

/-- C7. SILENCE is absorbing and means zero amplitude: with every `exp9` entry at most 8191,
`addLogSamples` of SILENCE and any log sample `x` (in either order) has `logValue = 65535`
and sign POSITIVE exactly when `x.sign = POSITIVE`, `unlog` of that result is 0, and `unlog`
of any log sample with `logValue = 65535` is 0 for both signs. -/
theorem silence_absorbing (T : Tables) (hB : ExpBounded T 8191) (x : LogSample)
    (hx : x.logValue ≤ 65535) :
    (addLogSamples SILENCE x).1.logValue = 65535
    ∧ ((addLogSamples SILENCE x).1.sign = Sign.POSITIVE ↔ x.sign = Sign.POSITIVE)
    ∧ unlog T (addLogSamples SILENCE x).1 = 0
    ∧ (addLogSamples x SILENCE).1.logValue = 65535
    ∧ ((addLogSamples x SILENCE).1.sign = Sign.POSITIVE ↔ x.sign = Sign.POSITIVE)
    ∧ unlog T (addLogSamples x SILENCE).1 = 0
    ∧ ∀ s : Sign, unlog T { logValue := 65535, sign := s } = 0 := by
  have h1 : (addLogSamples SILENCE x).1.logValue = 65535 := by
    rw [addLogSamples_logValue SILENCE x (le_refl _) hx]
    show min (65535 + x.logValue) 65535 = 65535
    omega
  have h2 : (addLogSamples x SILENCE).1.logValue = 65535 := by
    rw [addLogSamples_logValue x SILENCE hx (le_refl _)]
    show min (x.logValue + 65535) 65535 = 65535
    omega
  have hu : ∀ l : LogSample, l.logValue = 65535 → unlog T l = 0 := by
    intro l hl
    cases l with
    | mk v s =>
      simp only at hl
      subst hl
      exact unlog_silence hB s
  refine ⟨h1, ?_, hu _ h1, h2, ?_, hu _ h2, fun s => unlog_silence hB s⟩
  · rw [addLogSamples_sign]
    show (if Sign.POSITIVE = x.sign then Sign.POSITIVE else Sign.NEGATIVE) = Sign.POSITIVE ↔ _
    cases x.sign <;> simp
  · rw [addLogSamples_sign]
    show (if x.sign = Sign.POSITIVE then Sign.POSITIVE else Sign.NEGATIVE) = Sign.POSITIVE ↔ _
    cases x.sign <;> simp

/-- Witness of C7 on the concrete tables with a loud negative sample. -/
theorem silence_absorbing_witness :
    ExpBounded demoTables 8191
    ∧ (addLogSamples SILENCE { logValue := 0, sign := Sign.NEGATIVE }).1.logValue = 65535
    ∧ unlog demoTables (addLogSamples SILENCE { logValue := 0, sign := Sign.NEGATIVE }).1 = 0 :=
  have h := silence_absorbing demoTables (demoTables_bounded.mono (by norm_num))
    { logValue := 0, sign := Sign.NEGATIVE } (by norm_num)
  ⟨demoTables_bounded.mono (by norm_num), h.1, h.2.2.1⟩

/-- C8. `unlog` converts log to linear: with every `exp9` entry in `[0, 8191]`, for every
`logValue` in `0..65535` and sign, `unlog` returns `m` for POSITIVE and `-m` for NEGATIVE where
`m = interpolateExp(logValue & 4095) >> (logValue >> 12)`; `0 <= m <= 8191`, so the result
lies in `[-32768, 32767]` without 16-bit wraparound; and `unlog` of `logValue = 0`, POSITIVE
is the maximum 8191. -/
theorem unlog_log_to_linear (T : Tables) (hB : ExpBounded T 8191) (logValue : Nat)
    (_hv : logValue ≤ 65535) (sign : Sign) :
    unlog T { logValue := logValue, sign := sign }
      = (if sign = Sign.POSITIVE
          then ((interpolateExp T (logValue % 4096) / 2 ^ (logValue / 4096) : Nat) : Int)
          else -((interpolateExp T (logValue % 4096) / 2 ^ (logValue / 4096) : Nat) : Int))
    ∧ interpolateExp T (logValue % 4096) / 2 ^ (logValue / 4096) ≤ 8191
    ∧ -32768 ≤ unlog T { logValue := logValue, sign := sign }
    ∧ unlog T { logValue := logValue, sign := sign } ≤ 32767
    ∧ unlog T { logValue := logValue, sign := sign } ≤ 8191
    ∧ unlog T { logValue := 0, sign := Sign.POSITIVE } = 8191 := by
  have hm := unlog_magnitude_le hB logValue
  have he := unlog_eq hB logValue sign
  have h0 : unlog T { logValue := 0, sign := Sign.POSITIVE } = 8191 := by
    rw [unlog_eq hB 0 Sign.POSITIVE]
    simp [interpolateExp_zero]
  have hb : -8191 ≤ unlog T { logValue := logValue, sign := sign }
      ∧ unlog T { logValue := logValue, sign := sign } ≤ 8191 := by
    rw [he]
    generalize interpolateExp T (logValue % 4096) / 2 ^ (logValue / 4096) = m at hm
    cases sign <;> simp <;> omega
  exact ⟨he, hm, by omega, by omega, hb.2, h0⟩

/-- Witness of C8 on the concrete tables at `logValue = 4096`, NEGATIVE. -/
theorem unlog_log_to_linear_witness :
    ExpBounded demoTables 8191 ∧ (4096 : Nat) ≤ 65535
    ∧ unlog demoTables { logValue := 4096, sign := Sign.NEGATIVE } ≤ 8191
    ∧ unlog demoTables { logValue := 0, sign := Sign.POSITIVE } = 8191 :=
  have h := unlog_log_to_linear demoTables (demoTables_bounded.mono (by norm_num)) 4096
    (by norm_num) Sign.NEGATIVE
  ⟨demoTables_bounded.mono (by norm_num), by norm_num, h.2.2.2.2.1, h.2.2.2.2.2⟩

/-- C9. `interpolateExp` is monotone and continuous at table boundaries: for a non-decreasing
`exp9` with entries in `[0, 8191]`, with `E 0 = 8191`, `E j = 8191 - exp9[j-1]` and
`j = fract >> 3`, for every `fract` in `[0, 4095]`: `E (j+1) <= interpolateExp fract <= E j`,
`interpolateExp (8 * j) = E j` (and `interpolateExp 0 = 8191`), the function is non-increasing
from `fract` onwards up to 4095, and for `fract <= 4094` one step lowers it by at least 0 and
at most `ceil ((E j - E (j+1)) / 8)`. -/
theorem interpolateExp_monotone_continuous (T : Tables) (hB : ExpBounded T 8191)
    (hM : ExpMonotone T) (fract : Nat) (hf : fract ≤ 4095) :
    expEntry T (fract / 8 + 1) ≤ (interpolateExp T fract : Int)
    ∧ (interpolateExp T fract : Int) ≤ expEntry T (fract / 8)
    ∧ (interpolateExp T (8 * (fract / 8)) : Int) = expEntry T (fract / 8)
    ∧ interpolateExp T 0 = 8191
    ∧ (∀ g : Nat, fract ≤ g → g ≤ 4095 → interpolateExp T g ≤ interpolateExp T fract)
    ∧ (fract ≤ 4094 →
        0 ≤ (interpolateExp T fract : Int) - (interpolateExp T (fract + 1) : Int)
        ∧ (interpolateExp T fract : Int) - (interpolateExp T (fract + 1) : Int)
            ≤ (expEntry T (fract / 8) - expEntry T (fract / 8 + 1) + 7) / 8) := by
  have hr := interpolateExp_range hB hM fract hf
  refine ⟨hr.1, hr.2, ?_, interpolateExp_zero T,
    fun g hfg hg => interpolateExp_antitone hB hM fract g hfg hg,
    fun h94 => interpolateExp_step hB hM fract h94⟩
  have h := interpolateExp_at hB (fract / 8) 0 (by omega) (by norm_num)
  simpa using h

/-- Witness of C9 on the concrete tables at the last position of a table interval. -/
theorem interpolateExp_monotone_continuous_witness :
    ExpBounded demoTables 8191 ∧ ExpMonotone demoTables ∧ (4095 : Nat) ≤ 4095
    ∧ expEntry demoTables (4095 / 8 + 1) ≤ (interpolateExp demoTables 4095 : Int)
    ∧ (interpolateExp demoTables 4095 : Int) ≤ expEntry demoTables (4095 / 8) :=
  have h := interpolateExp_monotone_continuous demoTables
    (demoTables_bounded.mono (by norm_num)) demoTables_monotone 4095 (le_refl _)
  ⟨demoTables_bounded.mono (by norm_num), demoTables_monotone, le_refl _, h.1, h.2.1⟩

/-- C2 (as stated, refuted). With `pcmWaveLength = 2^24 - 1`, non-looped, on the concrete
tables: after 16383 calls with pitch `15 << 12` (step `2^18`) the oscillator is active at
`wavePosition = 2^32 - 2^18`; for the next call `wavePosition + step = 2^32` is at least
`pcmWaveLength << 8`, yet the 32-bit sum wraps to 0 and the oscillator stays active. -/
theorem nonlooped_pcm_end_of_life_counterexample :
    (0 : Nat) < 16777215 ∧ (16777215 : Nat) < 2 ^ 24
    ∧ (runSamples demoTables (initPCM zeroState (some (fun _ => 0)) 16777215 false true)
        (List.replicate 16383 (0, 61440, 0))).active = true
    ∧ (runSamples demoTables (initPCM zeroState (some (fun _ => 0)) 16777215 false true)
        (List.replicate 16383 (0, 61440, 0))).wavePosition = 4294705152
    ∧ pcmSampleStep demoTables 61440 = 262144
    ∧ 4294705152 + 262144 ≥ 16777215 * 256
    ∧ (generateNextSample demoTables
        (runSamples demoTables (initPCM zeroState (some (fun _ => 0)) 16777215 false true)
          (List.replicate 16383 (0, 61440, 0))) 0 61440 0).active = true := by
  have hs : pcmSampleStep demoTables 61440 = 262144 := by
    have h := pitchExp_octave demoTables demoTables_interpolateExp_4095 15 (le_refl _)
    have h15 : (2 : Nat) ^ 15 = 32768 := by norm_num
    unfold pcmSampleStep
    rw [show (61440 : Nat) = 15 * 4096 by norm_num, h, h15]
  have hrun := runSamples_replicate_pcm demoTables (fun _ => 0) 0 61440 0 16383
    (initPCM zeroState (some (fun _ => 0)) 16777215 false true) rfl rfl
    (by show (16777215 : Nat) < 16777216; norm_num)
    (by
      rw [hs]
      show 0 + 16383 * 262144 < 16777215 * 256
      norm_num)
  have hcfg := runSamples_pcm_config demoTables
    (initPCM zeroState (some (fun _ => 0)) 16777215 false true) (fun _ => 0) rfl
    (List.replicate 16383 (0, 61440, 0))
  have hw : (runSamples demoTables (initPCM zeroState (some (fun _ => 0)) 16777215 false true)
      (List.replicate 16383 (0, 61440, 0))).wavePosition = 4294705152 := by
    rw [hrun.2, hs]
    show 0 + 16383 * 262144 = 4294705152
    norm_num
  refine ⟨by norm_num, by norm_num, hrun.1, hw, hs, by norm_num, ?_⟩
  rw [generateNextSample_pcm_active demoTables _ (fun _ => 0) hrun.1 hcfg.1]
  apply if_neg
  rintro ⟨h1, _⟩
  rw [hw, hs, hcfg.2.1] at h1
  have h0 : u32 (4294705152 + 262144) = 0 := by unfold u32; norm_num
  have hL : u32 (16777215 * 256) = 4294967040 := by unfold u32; norm_num
  change u32 (4294705152 + 262144) ≥ u32 (16777215 * 256) at h1
  rw [h0, hL] at h1
  omega

/-- C2 (amended). For a non-looped PCM oscillator initialised by `initPCM` with
`0 < pcmWaveLength <= 2^24 - 2^14`, in any state reached by `generateNextSample` calls in
which it is still active, a further call with a 16-bit pitch leaves it inactive if and only
if `wavePosition + step >= pcmWaveLength << 8`; and once it is inactive, after any further
calls `isActive` is false and both `getOutputLogSample` results are SILENCE. -/
theorem nonlooped_pcm_end_of_life (T : Tables) (st0 : LA32WaveGenerator) (mem : Nat → Int)
    (len : Nat) (interpolated : Bool) (inputs : List (Nat × Nat × Nat))
    (amp pitch cutoffVal : Nat) (hlen0 : 0 < len) (hlen : len ≤ 16760832)
    (hp : pitch ≤ 65535)
    (hact : (runSamples T (initPCM st0 (some mem) len false interpolated) inputs).active
      = true) :
    ((generateNextSample T
        (runSamples T (initPCM st0 (some mem) len false interpolated) inputs)
        amp pitch cutoffVal).active = false
      ↔ (runSamples T (initPCM st0 (some mem) len false interpolated) inputs).wavePosition
          + pcmSampleStep T pitch ≥ len * 256)
    ∧ ∀ st : LA32WaveGenerator, isActive st = false →
        ∀ (more : List (Nat × Nat × Nat)) (first : Bool),
          isActive (runSamples T st more) = false
          ∧ getOutputLogSample (runSamples T st more) first = SILENCE
          ∧ getOutputLogSample (runSamples T st more) first
              = { logValue := 65535, sign := Sign.POSITIVE } := by
  have hcfg := runSamples_pcm_config T (initPCM st0 (some mem) len false interpolated) mem rfl
    inputs
  have hinv := nonlooped_inv_run T (initPCM st0 (some mem) len false interpolated) mem rfl rfl
    (by show len < 16777216; omega) (fun _ => by show 0 < len * 256; omega) inputs hact
  have hinv' : (runSamples T (initPCM st0 (some mem) len false interpolated) inputs).wavePosition
      < len * 256 := hinv
  have hs := pcmSampleStep_lt T pitch hp
  constructor
  · rw [generateNextSample_pcm_active T _ mem hact hcfg.1, hcfg.2.1, hcfg.2.2.1]
    have hlen' : (initPCM st0 (some mem) len false interpolated).pcmWaveLength = len := rfl
    rw [hlen']
    generalize (runSamples T (initPCM st0 (some mem) len false interpolated) inputs).wavePosition
      = w at hinv' ⊢
    have hL : u32 (len * 256) = len * 256 := by unfold u32; omega
    have hW : u32 (w + pcmSampleStep T pitch) = w + pcmSampleStep T pitch := by
      unfold u32
      omega
    rw [hL, hW]
    show (if w + pcmSampleStep T pitch ≥ len * 256 ∧ false = false then false else true) = false
      ↔ _
    by_cases h : w + pcmSampleStep T pitch ≥ len * 256 <;> simp [h]
  · intro st hst more first
    have hst' : st.active = false := hst
    rw [runSamples_inactive T st hst' more]
    exact ⟨hst, getOutputLogSample_inactive st hst' first,
      getOutputLogSample_inactive st hst' first⟩

/-- Witness of C2 (amended): the four-entry scenario table, two calls made, a third call at
step 256 stays inside the table. -/
theorem nonlooped_pcm_end_of_life_witness :
    (0 : Nat) < 4 ∧ (4 : Nat) ≤ 16760832 ∧ (20480 : Nat) ≤ 65535
    ∧ (runSamples demoTables (initPCM zeroState (some (pcmTableView scenarioTable)) 4 false true)
        [(0, 20480, 0), (0, 20480, 0)]).active = true
    ∧ ((generateNextSample demoTables
        (runSamples demoTables (initPCM zeroState (some (pcmTableView scenarioTable)) 4 false true)
          [(0, 20480, 0), (0, 20480, 0)]) 0 20480 0).active = false
      ↔ (runSamples demoTables
            (initPCM zeroState (some (pcmTableView scenarioTable)) 4 false true)
            [(0, 20480, 0), (0, 20480, 0)]).wavePosition
          + pcmSampleStep demoTables 20480 ≥ 4 * 256) :=
  ⟨by norm_num, by norm_num, by norm_num, by decide,
    (nonlooped_pcm_end_of_life demoTables zeroState (pcmTableView scenarioTable) 4 true
      [(0, 20480, 0), (0, 20480, 0)] 0 20480 0 (by norm_num) (by norm_num) (by norm_num)
      (by decide)).1⟩

/-- C3 (as stated, refuted). On the concrete tables (`interpolateExp 4095 = 4096`, so pitch
`5 << 12` steps by 256), after the 4th `generateNextSample` call of the scenario the
oscillator is no longer active and the output read is SILENCE (linear 0), not the log sample
of table entry 3 (`-200`). -/
theorem pcm_scenario_counterexample :
    interpolateExp demoTables 4095 = 4096
    ∧ pcmSampleStep demoTables 20480 = 256
    ∧ isActive (runSamples demoTables
        (initPCM zeroState (some (pcmTableView scenarioTable)) 4 false true)
        (List.replicate 4 (0, 20480, 0))) = false
    ∧ getOutputLogSample (runSamples demoTables
        (initPCM zeroState (some (pcmTableView scenarioTable)) 4 false true)
        (List.replicate 4 (0, 20480, 0))) true = SILENCE
    ∧ getOutputLogSample (runSamples demoTables
        (initPCM zeroState (some (pcmTableView scenarioTable)) 4 false true)
        (List.replicate 4 (0, 20480, 0))) true
      ≠ pcmSampleToLogSample (runSamples demoTables
          (initPCM zeroState (some (pcmTableView scenarioTable)) 4 false true)
          (List.replicate 4 (0, 20480, 0))) (-200)
    ∧ unlogAndMixWGOutput demoTables (runSamples demoTables
        (initPCM zeroState (some (pcmTableView scenarioTable)) 4 false true)
        (List.replicate 4 (0, 20480, 0))) none = 0 := by
  refine ⟨by decide, by decide, by decide, by decide, by decide, by decide⟩

/-- C3 (amended). In the scenario (table `[100, -100, 200, -200]`, non-looped, interpolated,
pitch `5 << 12` with `interpolateExp 4095 = 4096`, any constant amp and cutoff) exactly 3
output samples are produced: for `k = 1..3` the oscillator is active after the `k`-th call,
`pcmInterpolationFactor = 0`, `getOutputLogSample(true)` is the log sample of table entry
`k - 1` and the mixed output is its `unlog`; the 4th call deactivates the oscillator, so after
the 4th and every later call both outputs are SILENCE and the mixed output is 0. -/
theorem pcm_scenario (T : Tables) (h : interpolateExp T 4095 = 4096)
    (st0 : LA32WaveGenerator) (amp cutoffVal : Nat) :
    (∀ k : Nat, 1 ≤ k → k ≤ 3 →
      isActive (runSamples T (initPCM st0 (some (pcmTableView scenarioTable)) 4 false true)
        (List.replicate k (amp, 20480, cutoffVal))) = true
      ∧ getPCMInterpolationFactor (runSamples T
          (initPCM st0 (some (pcmTableView scenarioTable)) 4 false true)
          (List.replicate k (amp, 20480, cutoffVal))) = 0
      ∧ getOutputLogSample (runSamples T
          (initPCM st0 (some (pcmTableView scenarioTable)) 4 false true)
          (List.replicate k (amp, 20480, cutoffVal))) true
        = pcmSampleToLogSample (runSamples T
            (initPCM st0 (some (pcmTableView scenarioTable)) 4 false true)
            (List.replicate k (amp, 20480, cutoffVal))) (scenarioTable.getD (k - 1) 0)
      ∧ unlogAndMixWGOutput T (runSamples T
          (initPCM st0 (some (pcmTableView scenarioTable)) 4 false true)
          (List.replicate k (amp, 20480, cutoffVal))) none
        = unlog T (pcmSampleToLogSample (runSamples T
            (initPCM st0 (some (pcmTableView scenarioTable)) 4 false true)
            (List.replicate k (amp, 20480, cutoffVal))) (scenarioTable.getD (k - 1) 0)))
    ∧ (∀ k : Nat, 4 ≤ k →
      isActive (runSamples T (initPCM st0 (some (pcmTableView scenarioTable)) 4 false true)
        (List.replicate k (amp, 20480, cutoffVal))) = false
      ∧ getOutputLogSample (runSamples T
          (initPCM st0 (some (pcmTableView scenarioTable)) 4 false true)
          (List.replicate k (amp, 20480, cutoffVal))) true = SILENCE
      ∧ getOutputLogSample (runSamples T
          (initPCM st0 (some (pcmTableView scenarioTable)) 4 false true)
          (List.replicate k (amp, 20480, cutoffVal))) false = SILENCE
      ∧ unlogAndMixWGOutput T (runSamples T
          (initPCM st0 (some (pcmTableView scenarioTable)) 4 false true)
          (List.replicate k (amp, 20480, cutoffVal))) none = 0) := by
  constructor
  · intro k hk1 hk3
    obtain ⟨j, rfl⟩ : ∃ j, k = j + 1 := ⟨k - 1, by omega⟩
    have hprev := scenario_first_calls T h st0 amp cutoffVal j (by omega)
    have hcur := scenario_first_calls T h st0 amp cutoffVal (j + 1) hk3
    have hcfgp := runSamples_pcm_config T
      (initPCM st0 (some (pcmTableView scenarioTable)) 4 false true)
      (pcmTableView scenarioTable) rfl (List.replicate j (amp, 20480, cutoffVal))
    have hcfg := runSamples_pcm_config T
      (initPCM st0 (some (pcmTableView scenarioTable)) 4 false true)
      (pcmTableView scenarioTable) rfl (List.replicate (j + 1) (amp, 20480, cutoffVal))
    have hout := generateNextSample_pcm_outputs T _ (pcmTableView scenarioTable) hprev.1
      hcfgp.1 amp 20480 cutoffVal
    rw [← runSamples_replicate_succ, hprev.2] at hout
    have hidx : j * 256 / 256 = j := by omega
    have hfac : j * 256 % 256 / 2 = 0 := by omega
    rw [hidx] at hout
    rw [hfac] at hout
    have hfirst : getOutputLogSample (runSamples T
        (initPCM st0 (some (pcmTableView scenarioTable)) 4 false true)
        (List.replicate (j + 1) (amp, 20480, cutoffVal))) true
        = pcmSampleToLogSample (runSamples T
            (initPCM st0 (some (pcmTableView scenarioTable)) 4 false true)
            (List.replicate (j + 1) (amp, 20480, cutoffVal))) (scenarioTable.getD j 0) := by
      unfold getOutputLogSample isActive isPCMWave
      simp only [hcur.1, hcfg.1, Option.isSome_some, Bool.not_true, Bool.false_eq_true,
        if_false, if_true]
      exact hout.1
    refine ⟨hcur.1, hout.2, hfirst, ?_⟩
    rw [unlogAndMixWGOutput_pcm_factor_zero T _ (pcmTableView scenarioTable) hcur.1 hcfg.1
      hout.2, hout.1]
    rfl
  · intro k hk
    have hin := scenario_later_calls T h st0 amp cutoffVal k hk
    exact ⟨hin, getOutputLogSample_inactive _ hin true, getOutputLogSample_inactive _ hin false,
      unlogAndMixWGOutput_inactive T _ hin none⟩

/-- Witness of C3 (amended) on the concrete tables: the third output is the log sample of
table entry 2 and the fifth is SILENCE. -/
theorem pcm_scenario_witness :
    interpolateExp demoTables 4095 = 4096
    ∧ getOutputLogSample (runSamples demoTables
        (initPCM zeroState (some (pcmTableView scenarioTable)) 4 false true)
        (List.replicate 3 (0, 20480, 0))) true
      = pcmSampleToLogSample (runSamples demoTables
          (initPCM zeroState (some (pcmTableView scenarioTable)) 4 false true)
          (List.replicate 3 (0, 20480, 0))) (scenarioTable.getD (3 - 1) 0)
    ∧ getOutputLogSample (runSamples demoTables
        (initPCM zeroState (some (pcmTableView scenarioTable)) 4 false true)
        (List.replicate 5 (0, 20480, 0))) true = SILENCE :=
  have h := pcm_scenario demoTables demoTables_interpolateExp_4095 zeroState 0 0
  ⟨demoTables_interpolateExp_4095, (h.1 3 (by norm_num) (le_refl _)).2.2.1,
    (h.2 5 (by norm_num)).2.1⟩

/-- C4 (the code at the failing input). A looped PCM oscillator over the four-entry scenario
table, driven once with pitch `8 << 12` (step 2048 on the concrete tables): the single
subtraction of `pcmWaveLength << 8` leaves `wavePosition = 1024 = pcmWaveLength * 256` on an
active oscillator, so the next call reads table index 4, outside the 4 entries. -/
theorem looped_pcm_position_overrun :
    pcmSampleStep demoTables 32768 = 2048
    ∧ isActive (generateNextSample demoTables
        (initPCM zeroState (some (pcmTableView scenarioTable)) 4 true true) 0 32768 0) = true
    ∧ (generateNextSample demoTables
        (initPCM zeroState (some (pcmTableView scenarioTable)) 4 true true) 0 32768 0).wavePosition
        = 1024
    ∧ (generateNextSample demoTables
        (initPCM zeroState (some (pcmTableView scenarioTable)) 4 true true) 0 32768 0).pcmWaveLength
        = 4
    ∧ ¬ ((generateNextSample demoTables
        (initPCM zeroState (some (pcmTableView scenarioTable)) 4 true true) 0 32768 0).wavePosition
          / 256 < scenarioTable.length) := by
  refine ⟨by decide, by decide, by decide, by decide, by decide⟩

/-- C5 (as stated, refuted). With `pcmWaveLength = 2^24 - 1`, looped, on the concrete tables:
after 16383 calls with pitch `15 << 12` (step `2^18`) the position is `2^32 - 2^18`; the next
call finds `wavePosition + step = 2^32 >= pcmWaveLength << 8`, but the 32-bit sum wraps to 0
and the new position is 0, not `wavePosition + step - (pcmWaveLength << 8) = 256`. -/
theorem looped_pcm_wrap_counterexample :
    (0 : Nat) < 16777215
    ∧ (runSamples demoTables (initPCM zeroState (some (fun _ => 0)) 16777215 true true)
        (List.replicate 16383 (0, 61440, 0))).wavePosition = 4294705152
    ∧ pcmSampleStep demoTables 61440 = 262144
    ∧ 4294705152 + 262144 ≥ 16777215 * 256
    ∧ 4294705152 + 262144 - 16777215 * 256 = 256
    ∧ (generateNextSample demoTables
        (runSamples demoTables (initPCM zeroState (some (fun _ => 0)) 16777215 true true)
          (List.replicate 16383 (0, 61440, 0))) 0 61440 0).wavePosition = 0 := by
  have hs : pcmSampleStep demoTables 61440 = 262144 := by
    have h := pitchExp_octave demoTables demoTables_interpolateExp_4095 15 (le_refl _)
    have h15 : (2 : Nat) ^ 15 = 32768 := by norm_num
    unfold pcmSampleStep
    rw [show (61440 : Nat) = 15 * 4096 by norm_num, h, h15]
  have hrun := runSamples_replicate_pcm demoTables (fun _ => 0) 0 61440 0 16383
    (initPCM zeroState (some (fun _ => 0)) 16777215 true true) rfl rfl
    (by show (16777215 : Nat) < 16777216; norm_num)
    (by
      rw [hs]
      show 0 + 16383 * 262144 < 16777215 * 256
      norm_num)
  have hcfg := runSamples_pcm_config demoTables
    (initPCM zeroState (some (fun _ => 0)) 16777215 true true) (fun _ => 0) rfl
    (List.replicate 16383 (0, 61440, 0))
  have hw : (runSamples demoTables (initPCM zeroState (some (fun _ => 0)) 16777215 true true)
      (List.replicate 16383 (0, 61440, 0))).wavePosition = 4294705152 := by
    rw [hrun.2, hs]
    show 0 + 16383 * 262144 = 4294705152
    norm_num
  refine ⟨by norm_num, hw, hs, by norm_num, by norm_num, ?_⟩
  rw [generateNextSample_pcm_wavePosition demoTables _ (fun _ => 0) hrun.1 hcfg.1]
  have h0 : u32 (4294705152 + 262144) = 0 := by unfold u32; norm_num
  have hL : u32 (16777215 * 256) = 4294967040 := by unfold u32; norm_num
  rw [if_neg]
  · rw [hw, hs]
    exact h0
  · rintro ⟨h1, _⟩
    rw [hw, hs, hcfg.2.1] at h1
    change u32 (4294705152 + 262144) ≥ u32 (16777215 * 256) at h1
    rw [h0, hL] at h1
    omega

/-- C5 (amended). A PCM oscillator initialised by `initPCM` with `pcmWaveLooped = true` is
still active after every finite sequence of `generateNextSample` calls and after one more
call; and whenever `pcmWaveLength < 2^24` and the call finds
`wavePosition + step >= pcmWaveLength << 8` with `wavePosition + step < 2^32` (no 32-bit
wrap of the sum), the new position is exactly `wavePosition + step - (pcmWaveLength << 8)`. -/
theorem looped_pcm_never_deactivates (T : Tables) (st0 : LA32WaveGenerator) (mem : Nat → Int)
    (len : Nat) (interpolated : Bool) (inputs : List (Nat × Nat × Nat))
    (amp pitch cutoffVal : Nat) :
    isActive (runSamples T (initPCM st0 (some mem) len true interpolated) inputs) = true
    ∧ isActive (generateNextSample T
        (runSamples T (initPCM st0 (some mem) len true interpolated) inputs)
        amp pitch cutoffVal) = true
    ∧ (len < 16777216 →
        (runSamples T (initPCM st0 (some mem) len true interpolated) inputs).wavePosition
          + pcmSampleStep T pitch < 4294967296 →
        (runSamples T (initPCM st0 (some mem) len true interpolated) inputs).wavePosition
          + pcmSampleStep T pitch ≥ len * 256 →
        (generateNextSample T
          (runSamples T (initPCM st0 (some mem) len true interpolated) inputs)
          amp pitch cutoffVal).wavePosition
          = (runSamples T (initPCM st0 (some mem) len true interpolated) inputs).wavePosition
              + pcmSampleStep T pitch - len * 256) := by
  have hact := looped_active_run T (initPCM st0 (some mem) len true interpolated) mem rfl rfl
    rfl inputs
  have hact1 := looped_active_run T (initPCM st0 (some mem) len true interpolated) mem rfl rfl
    rfl (inputs ++ [(amp, pitch, cutoffVal)])
  rw [runSamples_append] at hact1
  have hcfg := runSamples_pcm_config T (initPCM st0 (some mem) len true interpolated) mem rfl
    inputs
  refine ⟨hact, hact1, ?_⟩
  intro hlen hsum hge
  rw [generateNextSample_pcm_wavePosition T _ mem hact hcfg.1, hcfg.2.1]
  have hL : u32 ((initPCM st0 (some mem) len true interpolated).pcmWaveLength * 256)
      = len * 256 := by
    show u32 (len * 256) = len * 256
    unfold u32
    omega
  have hW : u32 ((runSamples T (initPCM st0 (some mem) len true interpolated)
      inputs).wavePosition + pcmSampleStep T pitch)
      = (runSamples T (initPCM st0 (some mem) len true interpolated) inputs).wavePosition
        + pcmSampleStep T pitch := by
    unfold u32
    omega
  rw [hL, hW, if_pos ⟨hge, hcfg.2.2.1⟩]

/-- Witness of C5 (amended): the looped four-entry scenario table wraps from 768 to 0 on the
fourth call at step 256. -/
theorem looped_pcm_never_deactivates_witness :
    (4 : Nat) < 16777216
    ∧ (runSamples demoTables (initPCM zeroState (some (pcmTableView scenarioTable)) 4 true true)
        (List.replicate 3 (0, 20480, 0))).wavePosition + pcmSampleStep demoTables 20480
        < 4294967296
    ∧ (runSamples demoTables (initPCM zeroState (some (pcmTableView scenarioTable)) 4 true true)
        (List.replicate 3 (0, 20480, 0))).wavePosition + pcmSampleStep demoTables 20480
        ≥ 4 * 256
    ∧ (generateNextSample demoTables
        (runSamples demoTables (initPCM zeroState (some (pcmTableView scenarioTable)) 4 true true)
          (List.replicate 3 (0, 20480, 0))) 0 20480 0).wavePosition
        = (runSamples demoTables
            (initPCM zeroState (some (pcmTableView scenarioTable)) 4 true true)
            (List.replicate 3 (0, 20480, 0))).wavePosition + pcmSampleStep demoTables 20480
          - 4 * 256 :=
  ⟨by norm_num, by decide, by decide,
    (looped_pcm_never_deactivates demoTables zeroState (pcmTableView scenarioTable) 4 true
      (List.replicate 3 (0, 20480, 0)) 0 20480 0).2.2 (by norm_num) (by decide) (by decide)⟩

/-- C10 (the code at the failing input). On the concrete tables, `initSynth(false, 0, 31)`
followed by one call `generateNextSample(0, 7 << 12, 240 << 18)` reaches the start of the
positive linear segment with `resonanceSinePosition = 2^18`.  For a second call with
`amp = 0` the exact sum of the added terms is `1280 < 4096`, the subtraction of `1 << 12`
wraps below zero and the stored `logValue` is 65535; with the larger
`amp = 4096 << 10` the stored `logValue` is 1280, so lowering amp raised it. -/
theorem resonance_log_value_underflow :
    (generateNextSample demoTables (initSynth demoTables zeroState false 0 31)
        0 28672 62914560).phase = Phase.POSITIVE_LINEAR_SEGMENT
    ∧ (generateNextSample demoTables (initSynth demoTables zeroState false 0 31)
        0 28672 62914560).resonanceSinePosition = 262144
    ∧ (generateNextSample demoTables (initSynth demoTables zeroState false 0 31)
        0 28672 62914560).resonanceAmpSubtraction = 1024
    ∧ resonanceLogSumExact demoTables
        { generateNextSample demoTables (initSynth demoTables zeroState false 0 31)
            0 28672 62914560 with amp := 0, pitch := 28672, cutoffVal := 62914560 } = 1280
    ∧ (generateNextSample demoTables
        (generateNextSample demoTables (initSynth demoTables zeroState false 0 31)
          0 28672 62914560) 0 28672 62914560).resonanceLogSample.logValue = 65535
    ∧ resonanceLogSumExact demoTables
        { generateNextSample demoTables (initSynth demoTables zeroState false 0 31)
            0 28672 62914560 with amp := 4194304, pitch := 28672, cutoffVal := 62914560 }
        = 5376
    ∧ (generateNextSample demoTables
        (generateNextSample demoTables (initSynth demoTables zeroState false 0 31)
          0 28672 62914560) 4194304 28672 62914560).resonanceLogSample.logValue = 1280 := by
  refine ⟨by decide, by decide, by decide, by decide, by decide, by decide, by decide⟩

/-- C11. Ring-modulation silence propagation: for every master oscillator state and every
modulating log sample whose `logValue` is 65535, `unlogAndMixWGOutput(master, modulator)` is
0; for every inactive master it is 0 for any modulator (also for none); and a ring-modulated,
non-mixed voice pair whose slave is inactive returns 0 from `nextOutSample`, both slave
outputs being SILENCE. -/
theorem ring_modulation_silence (T : Tables) (master : LA32WaveGenerator) (r : LogSample)
    (pair : LA32PartialPair) :
    (r.logValue = 65535 → unlogAndMixWGOutput T master (some r) = 0)
    ∧ (isActive master = false → ∀ m : Option LogSample, unlogAndMixWGOutput T master m = 0)
    ∧ (pair.ringModulated = true → pair.mixed = false → isActive pair.slave = false →
        getOutputLogSample pair.slave true = SILENCE
        ∧ getOutputLogSample pair.slave false = SILENCE
        ∧ nextOutSample T pair = 0) := by
  refine ⟨unlogAndMixWGOutput_silent_modulator T master r,
    fun h m => unlogAndMixWGOutput_inactive T master h m, ?_⟩
  intro hring hmix hslave
  have h1 := getOutputLogSample_inactive pair.slave hslave true
  have h2 := getOutputLogSample_inactive pair.slave hslave false
  refine ⟨h1, h2, ?_⟩
  have hz : unlogAndMixWGOutput T pair.master (some SILENCE) = 0 :=
    unlogAndMixWGOutput_silent_modulator T pair.master SILENCE rfl
  unfold nextOutSample
  simp only [hring, hmix, h1, h2, hz, if_true, Bool.false_eq_true, if_false]
  split_ifs <;> simp [s16]

/-- Witness of C11: an active synth master at full amplitude, modulated by an inactive
slave, in a ring-modulated non-mixed pair. -/
theorem ring_modulation_silence_witness :
    nextOutSample demoTables
      { master := generateNextSample demoTables (initSynth demoTables zeroState false 128 0)
          0 2048 62914560,
        slave := zeroState, ringModulated := true, mixed := false } = 0 :=
  ((ring_modulation_silence demoTables zeroState SILENCE
      { master := generateNextSample demoTables (initSynth demoTables zeroState false 128 0)
          0 2048 62914560,
        slave := zeroState, ringModulated := true, mixed := false }).2.2 rfl rfl rfl).2.2

/-- C13 (as stated, refuted). A prior state left by a synth note (one call after
`initSynth(false, 0, 31)` on the concrete tables) is in the positive linear segment with
`resonanceSinePosition = 2^18`; `initPCM` over the scenario table leaves `phase`,
`resonanceSinePosition` and `resonancePhase` as they were instead of resetting them. -/
theorem initialisation_resets_counterexample :
    (initPCM (generateNextSample demoTables (initSynth demoTables zeroState false 0 31)
        0 28672 62914560) (some (pcmTableView scenarioTable)) 4 false true).phase
      = Phase.POSITIVE_LINEAR_SEGMENT
    ∧ (initPCM (generateNextSample demoTables (initSynth demoTables zeroState false 0 31)
        0 28672 62914560) (some (pcmTableView scenarioTable)) 4 false true).phase
      ≠ Phase.POSITIVE_RISING_SINE_SEGMENT
    ∧ (initPCM (generateNextSample demoTables (initSynth demoTables zeroState false 0 31)
        0 28672 62914560) (some (pcmTableView scenarioTable)) 4 false true).resonanceSinePosition
      = 262144
    ∧ (initPCM (generateNextSample demoTables (initSynth demoTables zeroState false 0 31)
        0 28672 62914560) (some (pcmTableView scenarioTable)) 4 false true).resonancePhase
      = ResonancePhase.POSITIVE_FALLING_RESONANCE_SINE_SEGMENT := by
  refine ⟨by decide, by decide, by decide, by decide⟩

/-- C13 (amended). For every prior oscillator state and every argument: after `initSynth`,
`wavePosition`, `squareWavePosition` and `resonanceSinePosition` are 0, `phase` and
`resonancePhase` are the positive rising segments, `active` is true and `isPCMWave()` is
false; after `initPCM` with a non-null table, `wavePosition = 0`, `active = true` and
`isPCMWave()` is true, while `squareWavePosition`, `resonanceSinePosition`, `phase` and
`resonancePhase` keep their prior values. -/
theorem initialisation_resets (T : Tables) (st : LA32WaveGenerator) (sawtoothWaveform : Bool)
    (pulseWidth resonance : Nat) (mem : Nat → Int) (pcmWaveLength : Nat)
    (pcmWaveLooped pcmWaveInterpolated : Bool) :
    ((initSynth T st sawtoothWaveform pulseWidth resonance).wavePosition = 0
      ∧ (initSynth T st sawtoothWaveform pulseWidth resonance).squareWavePosition = 0
      ∧ (initSynth T st sawtoothWaveform pulseWidth resonance).resonanceSinePosition = 0
      ∧ (initSynth T st sawtoothWaveform pulseWidth resonance).phase
          = Phase.POSITIVE_RISING_SINE_SEGMENT
      ∧ (initSynth T st sawtoothWaveform pulseWidth resonance).resonancePhase
          = ResonancePhase.POSITIVE_RISING_RESONANCE_SINE_SEGMENT
      ∧ isActive (initSynth T st sawtoothWaveform pulseWidth resonance) = true
      ∧ isPCMWave (initSynth T st sawtoothWaveform pulseWidth resonance) = false)
    ∧ ((initPCM st (some mem) pcmWaveLength pcmWaveLooped pcmWaveInterpolated).wavePosition = 0
      ∧ isActive (initPCM st (some mem) pcmWaveLength pcmWaveLooped pcmWaveInterpolated) = true
      ∧ isPCMWave (initPCM st (some mem) pcmWaveLength pcmWaveLooped pcmWaveInterpolated)
          = true
      ∧ (initPCM st (some mem) pcmWaveLength pcmWaveLooped
          pcmWaveInterpolated).squareWavePosition = st.squareWavePosition
      ∧ (initPCM st (some mem) pcmWaveLength pcmWaveLooped
          pcmWaveInterpolated).resonanceSinePosition = st.resonanceSinePosition
      ∧ (initPCM st (some mem) pcmWaveLength pcmWaveLooped pcmWaveInterpolated).phase
          = st.phase
      ∧ (initPCM st (some mem) pcmWaveLength pcmWaveLooped pcmWaveInterpolated).resonancePhase
          = st.resonancePhase) :=
  ⟨⟨rfl, rfl, rfl, rfl, rfl, rfl, rfl⟩, ⟨rfl, rfl, rfl, rfl, rfl, rfl, rfl⟩⟩

/-- C14. Cutoff is clamped to `240 << 18`: for every active synth oscillator state and every
amp and pitch, a call with `cutoffVal > 240 << 18` produces exactly the same state as the call
with `cutoffVal = 240 << 18`; and for `cutoffVal <= 240 << 18` the stored `cutoffVal` equals
the argument. -/
theorem cutoff_clamped (T : Tables) (st : LA32WaveGenerator) (amp pitch cutoffVal : Nat)
    (ha : isActive st = true) (hs : isPCMWave st = false) :
    (cutoffVal > MAX_CUTOFF_VALUE →
      generateNextSample T st amp pitch cutoffVal
        = generateNextSample T st amp pitch MAX_CUTOFF_VALUE)
    ∧ (cutoffVal ≤ MAX_CUTOFF_VALUE →
      (generateNextSample T st amp pitch cutoffVal).cutoffVal = cutoffVal) := by
  have ha' : st.active = true := ha
  have hs' : st.pcmWaveAddress = none := by
    unfold isPCMWave at hs
    cases h : st.pcmWaveAddress with
    | none => rfl
    | some m => rw [h] at hs; simp at hs
  constructor
  · intro hgt
    rw [generateNextSample_synth T st ha' hs', generateNextSample_synth T st ha' hs',
      if_pos hgt, if_neg (lt_irrefl _)]
  · intro hle
    rw [generateNextSample_synth T st ha' hs', advancePosition_eq, generateSynthLogSamples_eq,
      if_neg (not_lt.mpr hle)]

/-- Witness of C14 on the concrete tables: a fresh synth oscillator driven with a cutoff
above the limit. -/
theorem cutoff_clamped_witness :
    isActive (initSynth demoTables zeroState false 128 0) = true
    ∧ isPCMWave (initSynth demoTables zeroState false 128 0) = false
    ∧ (70000000 : Nat) > MAX_CUTOFF_VALUE
    ∧ generateNextSample demoTables (initSynth demoTables zeroState false 128 0)
        0 2048 70000000
      = generateNextSample demoTables (initSynth demoTables zeroState false 128 0)
        0 2048 MAX_CUTOFF_VALUE :=
  ⟨rfl, rfl, by decide,
    (cutoff_clamped demoTables (initSynth demoTables zeroState false 128 0) 0 2048 70000000
      rfl rfl).1 (by decide)⟩

/-- C17. Square-wave log sample value and sign: with `logsin9` entries of 16 bits, for every
phase, `squareWavePosition`, 32-bit amp and stored `cutoffVal <= 240 << 18`,
`generateNextSquareWaveLogSample` sets the sign POSITIVE exactly in the three positive
segments and NEGATIVE in the other three, and `logValue = min 65535 (4 * t + (amp >> 10) +
boost)` where the sum does not wrap 32 bits, `boost` is `((128 << 18) - cutoffVal) >> 9` below
the middle cutoff and 0 otherwise, and `t` is 0 in the two linear segments; so in a linear
segment with `cutoffVal >= 128 << 18` and `amp < 1024` the log value is 0, and the log value
is non-decreasing in amp. -/
theorem square_log_sample (T : Tables) (hL : LogsinBounded T) (st : LA32WaveGenerator)
    (hamp : st.amp < 4294967296) (hc : st.cutoffVal ≤ MAX_CUTOFF_VALUE) :
    ((generateNextSquareWaveLogSample T st).squareLogSample.sign = Sign.POSITIVE
      ↔ st.phase = Phase.POSITIVE_RISING_SINE_SEGMENT
        ∨ st.phase = Phase.POSITIVE_LINEAR_SEGMENT
        ∨ st.phase = Phase.POSITIVE_FALLING_SINE_SEGMENT)
    ∧ ((generateNextSquareWaveLogSample T st).squareLogSample.sign = Sign.NEGATIVE
      ↔ st.phase = Phase.NEGATIVE_FALLING_SINE_SEGMENT
        ∨ st.phase = Phase.NEGATIVE_LINEAR_SEGMENT
        ∨ st.phase = Phase.NEGATIVE_RISING_SINE_SEGMENT)
    ∧ 4 * squareTableTerm T st.phase st.squareWavePosition + st.amp / 1024
        + squareCutoffBoost st.cutoffVal < 4294967296
    ∧ (generateNextSquareWaveLogSample T st).squareLogSample.logValue
        = min 65535 (4 * squareTableTerm T st.phase st.squareWavePosition + st.amp / 1024
            + squareCutoffBoost st.cutoffVal)
    ∧ (st.phase = Phase.POSITIVE_LINEAR_SEGMENT ∨ st.phase = Phase.NEGATIVE_LINEAR_SEGMENT →
        squareTableTerm T st.phase st.squareWavePosition = 0)
    ∧ (st.phase = Phase.POSITIVE_LINEAR_SEGMENT ∨ st.phase = Phase.NEGATIVE_LINEAR_SEGMENT →
        st.cutoffVal ≥ MIDDLE_CUTOFF_VALUE → st.amp < 1024 →
        (generateNextSquareWaveLogSample T st).squareLogSample.logValue = 0)
    ∧ (∀ amp2 : Nat, st.amp ≤ amp2 → amp2 < 4294967296 →
        (generateNextSquareWaveLogSample T st).squareLogSample.logValue
          ≤ (generateNextSquareWaveLogSample T { st with amp := amp2 }).squareLogSample.logValue)
    := by
  have hv := square_logValue_eq hL st hamp hc
  have hlin : st.phase = Phase.POSITIVE_LINEAR_SEGMENT
      ∨ st.phase = Phase.NEGATIVE_LINEAR_SEGMENT →
      squareTableTerm T st.phase st.squareWavePosition = 0 := by
    intro h
    rcases h with h | h <;> rw [h] <;> rfl
  refine ⟨?_, ?_, hv.1, hv.2, hlin, ?_, ?_⟩
  · show (if st.phase.toNat < Phase.NEGATIVE_FALLING_SINE_SEGMENT.toNat
        then Sign.POSITIVE else Sign.NEGATIVE) = Sign.POSITIVE ↔ _
    cases st.phase <;> simp [Phase.toNat]
  · show (if st.phase.toNat < Phase.NEGATIVE_FALLING_SINE_SEGMENT.toNat
        then Sign.POSITIVE else Sign.NEGATIVE) = Sign.NEGATIVE ↔ _
    cases st.phase <;> simp [Phase.toNat]
  · intro h hmid hsmall
    rw [hv.2, hlin h]
    have hb : squareCutoffBoost st.cutoffVal = 0 := by
      unfold squareCutoffBoost
      rw [if_neg (not_lt.mpr hmid)]
    rw [hb]
    omega
  · intro amp2 h12 h2
    have hv2 := square_logValue_eq hL { st with amp := amp2 } h2 hc
    rw [hv.2, hv2.2]
    show min 65535 (4 * squareTableTerm T st.phase st.squareWavePosition + st.amp / 1024
        + squareCutoffBoost st.cutoffVal)
      ≤ min 65535 (4 * squareTableTerm T st.phase st.squareWavePosition + amp2 / 1024
        + squareCutoffBoost st.cutoffVal)
    have : st.amp / 1024 ≤ amp2 / 1024 := Nat.div_le_div_right h12
    omega

/-- Witness of C17 on the concrete tables: the initial state of a synth oscillator with the
maximal cutoff stored. -/
theorem square_log_sample_witness :
    LogsinBounded demoTables
    ∧ ({ initSynth demoTables zeroState false 128 0 with cutoffVal := 62914560 }).amp
        < 4294967296
    ∧ (generateNextSquareWaveLogSample demoTables
        { initSynth demoTables zeroState false 128 0 with
          cutoffVal := 62914560 }).squareLogSample.logValue
      = min 65535 (4 * squareTableTerm demoTables Phase.POSITIVE_RISING_SINE_SEGMENT 0 + 0 / 1024
          + squareCutoffBoost 62914560) :=
  have hL : LogsinBounded demoTables := fun i _ => by
    show (511 - i) * 16 ≤ 65535
    omega
  ⟨hL, by decide,
    (square_log_sample demoTables hL
      { initSynth demoTables zeroState false 128 0 with cutoffVal := 62914560 }
      (by decide) (le_refl _)).2.2.2.1⟩

/-- C18 (as stated, refuted). In `NEGATIVE_FALLING_SINE_SEGMENT` at `squareWavePosition = 0`
the index read is the direct offset 0, not the mirrored 511, and in
`NEGATIVE_RISING_SINE_SEGMENT` it is the mirrored 511, not the direct 0; on the concrete
tables the entries read are `logsin9[0] = 8176` and `logsin9[511] = 0`. -/
theorem square_table_mirroring_counterexample :
    squareTableIndex Phase.NEGATIVE_FALLING_SINE_SEGMENT 0 = some 0
    ∧ squareTableIndex Phase.NEGATIVE_FALLING_SINE_SEGMENT 0 ≠ some (511 - (0 / 512) % 512)
    ∧ squareTableIndex Phase.NEGATIVE_RISING_SINE_SEGMENT 0 = some 511
    ∧ squareTableIndex Phase.NEGATIVE_RISING_SINE_SEGMENT 0 ≠ some ((0 / 512) % 512)
    ∧ squareTableTerm demoTables Phase.NEGATIVE_FALLING_SINE_SEGMENT 0 = 8176
    ∧ squareTableTerm demoTables Phase.NEGATIVE_RISING_SINE_SEGMENT 0 = 0
    ∧ (generateNextSquareWaveLogSample demoTables
        { zeroState with phase := Phase.NEGATIVE_FALLING_SINE_SEGMENT,
                         cutoffVal := 62914560 }).squareLogSample.logValue = 32704
    ∧ (generateNextSquareWaveLogSample demoTables
        { zeroState with phase := Phase.NEGATIVE_RISING_SINE_SEGMENT,
                         cutoffVal := 62914560 }).squareLogSample.logValue = 0 := by
  refine ⟨by decide, by decide, by decide, by decide, by decide, by decide, by decide,
    by decide⟩

/-- C18 (amended). In `generateNextSquareWaveLogSample`, for every 32-bit
`squareWavePosition`, the table index is the mirrored offset
`(~(squareWavePosition >> 9)) & 511 = 511 - ((squareWavePosition >> 9) & 511)` exactly in
`POSITIVE_FALLING_SINE_SEGMENT` and `NEGATIVE_RISING_SINE_SEGMENT`, and the direct offset
`(squareWavePosition >> 9) & 511` in `POSITIVE_RISING_SINE_SEGMENT` and
`NEGATIVE_FALLING_SINE_SEGMENT`; the table term used is the entry at that index. -/
theorem square_table_mirroring (T : Tables) (squareWavePosition : Nat)
    (hp : squareWavePosition < 4294967296) :
    squareTableIndex Phase.POSITIVE_FALLING_SINE_SEGMENT squareWavePosition
        = some (511 - (squareWavePosition / 512) % 512)
    ∧ squareTableIndex Phase.NEGATIVE_RISING_SINE_SEGMENT squareWavePosition
        = some (511 - (squareWavePosition / 512) % 512)
    ∧ squareTableIndex Phase.POSITIVE_RISING_SINE_SEGMENT squareWavePosition
        = some ((squareWavePosition / 512) % 512)
    ∧ squareTableIndex Phase.NEGATIVE_FALLING_SINE_SEGMENT squareWavePosition
        = some ((squareWavePosition / 512) % 512)
    ∧ (4294967295 - squareWavePosition / 512) % 512 = 511 - (squareWavePosition / 512) % 512
    ∧ (squareWavePosition / 512) % 512 ≠ 511 - (squareWavePosition / 512) % 512
    ∧ ∀ phase : Phase,
        squareTableTerm T phase squareWavePosition
          = match squareTableIndex phase squareWavePosition with
            | some i => T.logsin9 i
            | none => 0 := by
  refine ⟨rfl, rfl, rfl, rfl, by omega, by omega,
    fun phase => squareTableTerm_eq_index T phase squareWavePosition⟩

/-- Witness of C18 (amended) at `squareWavePosition = 1024`. -/
theorem square_table_mirroring_witness :
    (1024 : Nat) < 4294967296
    ∧ squareTableIndex Phase.NEGATIVE_RISING_SINE_SEGMENT 1024 = some (511 - (1024 / 512) % 512)
    ∧ squareTableIndex Phase.NEGATIVE_FALLING_SINE_SEGMENT 1024 = some ((1024 / 512) % 512) :=
  have h := square_table_mirroring demoTables 1024 (by norm_num)
  ⟨by norm_num, h.2.1, h.2.2.2.1⟩

/-- C20. A larger log value is never louder: for a non-decreasing `exp9` with entries in
`[0, 4095]` and log values `a <= b` in `0..65535`,
`unlog(a, POSITIVE) >= unlog(b, POSITIVE) >= 0` and
`unlog(a, NEGATIVE) <= unlog(b, NEGATIVE) <= 0`, also across the boundaries where the integer
part increments (stated for `4096 * k - 1` and `4096 * k`); and
`unlog(v, NEGATIVE) = -unlog(v, POSITIVE)` for every `v`. -/
theorem unlog_larger_never_louder (T : Tables) (hB : ExpBounded T 4095) (hM : ExpMonotone T)
    (a b : Nat) (hab : a ≤ b) (_hb : b ≤ 65535) :
    unlog T { logValue := b, sign := Sign.POSITIVE }
        ≤ unlog T { logValue := a, sign := Sign.POSITIVE }
    ∧ 0 ≤ unlog T { logValue := b, sign := Sign.POSITIVE }
    ∧ unlog T { logValue := a, sign := Sign.NEGATIVE }
        ≤ unlog T { logValue := b, sign := Sign.NEGATIVE }
    ∧ unlog T { logValue := b, sign := Sign.NEGATIVE } ≤ 0
    ∧ (∀ k : Nat, 1 ≤ k → k ≤ 15 →
        unlog T { logValue := 4096 * k, sign := Sign.POSITIVE }
          ≤ unlog T { logValue := 4096 * k - 1, sign := Sign.POSITIVE })
    ∧ (∀ v : Nat, unlog T { logValue := v, sign := Sign.NEGATIVE }
        = -unlog T { logValue := v, sign := Sign.POSITIVE }) := by
  have hB8 : ExpBounded T 8191 := hB.mono (by norm_num)
  have hm := unlog_magnitude_antitone hB hM a b hab
  have hpos : ∀ v : Nat, unlog T { logValue := v, sign := Sign.POSITIVE }
      = ((interpolateExp T (v % 4096) / 2 ^ (v / 4096) : Nat) : Int) := by
    intro v
    rw [unlog_eq hB8 v Sign.POSITIVE, if_pos rfl]
  have hneg : ∀ v : Nat, unlog T { logValue := v, sign := Sign.NEGATIVE }
      = -((interpolateExp T (v % 4096) / 2 ^ (v / 4096) : Nat) : Int) := by
    intro v
    rw [unlog_eq hB8 v Sign.NEGATIVE, if_neg (by decide)]
  refine ⟨?_, ?_, ?_, ?_, ?_, ?_⟩
  · rw [hpos, hpos]
    exact_mod_cast hm
  · rw [hpos]
    exact Int.natCast_nonneg _
  · rw [hneg, hneg]
    have : ((interpolateExp T (b % 4096) / 2 ^ (b / 4096) : Nat) : Int)
        ≤ ((interpolateExp T (a % 4096) / 2 ^ (a / 4096) : Nat) : Int) := by exact_mod_cast hm
    omega
  · rw [hneg]
    have := Int.natCast_nonneg (interpolateExp T (b % 4096) / 2 ^ (b / 4096))
    omega
  · intro k hk1 _
    rw [hpos, hpos]
    exact_mod_cast unlog_magnitude_antitone hB hM (4096 * k - 1) (4096 * k) (by omega)
  · intro v
    rw [hpos, hneg]

/-- Witness of C20 on the concrete tables across the first integer-part boundary. -/
theorem unlog_larger_never_louder_witness :
    ExpBounded demoTables 4095 ∧ ExpMonotone demoTables ∧ (4095 : Nat) ≤ 4096
    ∧ (4096 : Nat) ≤ 65535
    ∧ unlog demoTables { logValue := 4096, sign := Sign.POSITIVE }
        ≤ unlog demoTables { logValue := 4095, sign := Sign.POSITIVE }
    ∧ unlog demoTables { logValue := 4095, sign := Sign.NEGATIVE }
        ≤ unlog demoTables { logValue := 4096, sign := Sign.NEGATIVE } :=
  have h := unlog_larger_never_louder demoTables demoTables_bounded demoTables_monotone
    4095 4096 (by norm_num) (by norm_num)
  ⟨demoTables_bounded, demoTables_monotone, by norm_num, by norm_num, h.1, h.2.2.1⟩

/-- C12. PCM linear interpolation: with every `exp9` entry in `[0, 8191]`, for an active PCM
oscillator with no ring modulator and `pcmInterpolationFactor` in `0..127`, with
`f = unlog(first)` and `s = unlog(second)`, `unlogAndMixWGOutput` returns exactly
`f + floor((s - f) * factor / 128)` (also when `s < f`, where the product is evaluated in
unsigned 32-bit arithmetic), a value between `f` and `s` inclusive, inside the signed 16-bit
range, equal to `f` when the factor is 0; and the factor cached by a `generateNextSample`
call is `(wavePosition & 255) >> 1`, at most 127. -/
theorem pcm_linear_interpolation (T : Tables) (hB : ExpBounded T 8191)
    (wg : LA32WaveGenerator) (mem : Nat → Int) (ha : isActive wg = true)
    (hm : wg.pcmWaveAddress = some mem) (hf : getPCMInterpolationFactor wg ≤ 127) :
    unlogAndMixWGOutput T wg none
        = unlog T wg.firstPCMLogSample
          + (unlog T wg.secondPCMLogSample - unlog T wg.firstPCMLogSample)
              * (getPCMInterpolationFactor wg : Int) / 128
    ∧ min (unlog T wg.firstPCMLogSample) (unlog T wg.secondPCMLogSample)
        ≤ unlogAndMixWGOutput T wg none
    ∧ unlogAndMixWGOutput T wg none
        ≤ max (unlog T wg.firstPCMLogSample) (unlog T wg.secondPCMLogSample)
    ∧ -32768 ≤ unlogAndMixWGOutput T wg none
    ∧ unlogAndMixWGOutput T wg none ≤ 32767
    ∧ (getPCMInterpolationFactor wg = 0 →
        unlogAndMixWGOutput T wg none = unlog T wg.firstPCMLogSample)
    ∧ (∀ (st : LA32WaveGenerator) (amp pitch cutoffVal : Nat), st.active = true →
        st.pcmWaveAddress = some mem →
        getPCMInterpolationFactor (generateNextSample T st amp pitch cutoffVal)
            = (st.wavePosition % 256) / 2
        ∧ getPCMInterpolationFactor (generateNextSample T st amp pitch cutoffVal) ≤ 127) := by
  have h1 := unlog_abs_le hB wg.firstPCMLogSample
  have h2 := unlog_abs_le hB wg.secondPCMLogSample
  have h := pcm_interpolation_arith (unlog T wg.firstPCMLogSample)
    (unlog T wg.secondPCMLogSample) wg.pcmInterpolationFactor h1.1 h1.2 h2.1 h2.2 hf
  have he : unlogAndMixWGOutput T wg none
      = unlog T wg.firstPCMLogSample
        + (unlog T wg.secondPCMLogSample - unlog T wg.firstPCMLogSample)
            * (getPCMInterpolationFactor wg : Int) / 128 := by
    rw [unlogAndMixWGOutput_pcm T wg mem ha hm, h.1]
    rfl
  refine ⟨he, ?_, ?_, ?_, ?_, ?_, ?_⟩
  · rw [he]
    exact h.2.1
  · rw [he]
    exact h.2.2
  · rw [he]
    have := h.2.1
    change min _ _ ≤ unlog T wg.firstPCMLogSample
      + (unlog T wg.secondPCMLogSample - unlog T wg.firstPCMLogSample)
        * (getPCMInterpolationFactor wg : Int) / 128 at this
    omega
  · rw [he]
    have := h.2.2
    change unlog T wg.firstPCMLogSample
      + (unlog T wg.secondPCMLogSample - unlog T wg.firstPCMLogSample)
        * (getPCMInterpolationFactor wg : Int) / 128 ≤ max _ _ at this
    omega
  · intro h0
    rw [he, h0]
    simp
  · intro st amp pitch cutoffVal hact hmem
    have hout := generateNextSample_pcm_outputs T st mem hact hmem amp pitch cutoffVal
    unfold getPCMInterpolationFactor
    rw [hout.2]
    exact ⟨rfl, by omega⟩

/-- Witness of C12 on the concrete tables: the two-entry loud table played at step 64; after
the second call the factor is 32, `f = 7645`, `s = -7645` and the output is
`7645 + floor(-15290 * 32 / 128) = 3822`. -/
theorem pcm_linear_interpolation_witness :
    ExpBounded demoTables 8191
    ∧ getPCMInterpolationFactor (runSamples demoTables
        (initPCM zeroState (some (pcmTableView loudTable)) 2 false true)
        [(0, 12288, 0), (0, 12288, 0)]) = 32
    ∧ unlogAndMixWGOutput demoTables (runSamples demoTables
        (initPCM zeroState (some (pcmTableView loudTable)) 2 false true)
        [(0, 12288, 0), (0, 12288, 0)]) none = 3822
    ∧ unlogAndMixWGOutput demoTables (runSamples demoTables
        (initPCM zeroState (some (pcmTableView loudTable)) 2 false true)
        [(0, 12288, 0), (0, 12288, 0)]) none
      = unlog demoTables (runSamples demoTables
          (initPCM zeroState (some (pcmTableView loudTable)) 2 false true)
          [(0, 12288, 0), (0, 12288, 0)]).firstPCMLogSample
        + (unlog demoTables (runSamples demoTables
            (initPCM zeroState (some (pcmTableView loudTable)) 2 false true)
            [(0, 12288, 0), (0, 12288, 0)]).secondPCMLogSample
          - unlog demoTables (runSamples demoTables
            (initPCM zeroState (some (pcmTableView loudTable)) 2 false true)
            [(0, 12288, 0), (0, 12288, 0)]).firstPCMLogSample)
          * (getPCMInterpolationFactor (runSamples demoTables
              (initPCM zeroState (some (pcmTableView loudTable)) 2 false true)
              [(0, 12288, 0), (0, 12288, 0)]) : Int) / 128 :=
  ⟨demoTables_bounded.mono (by norm_num), by decide, by decide,
    (pcm_linear_interpolation demoTables (demoTables_bounded.mono (by norm_num))
      (runSamples demoTables (initPCM zeroState (some (pcmTableView loudTable)) 2 false true)
        [(0, 12288, 0), (0, 12288, 0)])
      (pcmTableView loudTable) (by decide) rfl (by decide)).1⟩

/-- C19. The dry voice-pair sum cannot overflow 16 bits: with every `exp9` entry in
`[0, 8191]`, for a pair with `ringModulated = false` and any master and slave states whose
`pcmInterpolationFactor` is in `0..127`, each `unlogAndMixWGOutput(osc, none)` has magnitude at
most 16382 (at most 8191 for a PCM oscillator), and `nextOutSample` is the exact integer sum
of the two, of magnitude at most 32764. -/
theorem dry_pair_sum_no_overflow (T : Tables) (hB : ExpBounded T 8191)
    (pair : LA32PartialPair) (hr : pair.ringModulated = false)
    (hfm : getPCMInterpolationFactor pair.master ≤ 127)
    (hfs : getPCMInterpolationFactor pair.slave ≤ 127) :
    (-16382 ≤ unlogAndMixWGOutput T pair.master none
      ∧ unlogAndMixWGOutput T pair.master none ≤ 16382)
    ∧ (-16382 ≤ unlogAndMixWGOutput T pair.slave none
      ∧ unlogAndMixWGOutput T pair.slave none ≤ 16382)
    ∧ (isPCMWave pair.master = true →
        -8191 ≤ unlogAndMixWGOutput T pair.master none
        ∧ unlogAndMixWGOutput T pair.master none ≤ 8191)
    ∧ (isPCMWave pair.slave = true →
        -8191 ≤ unlogAndMixWGOutput T pair.slave none
        ∧ unlogAndMixWGOutput T pair.slave none ≤ 8191)
    ∧ nextOutSample T pair
        = unlogAndMixWGOutput T pair.master none + unlogAndMixWGOutput T pair.slave none
    ∧ -32764 ≤ nextOutSample T pair
    ∧ nextOutSample T pair ≤ 32764 := by
  have hm := unlogAndMixWGOutput_abs_le hB pair.master hfm
  have hs := unlogAndMixWGOutput_abs_le hB pair.slave hfs
  have he : nextOutSample T pair
      = unlogAndMixWGOutput T pair.master none + unlogAndMixWGOutput T pair.slave none := by
    unfold nextOutSample
    simp only [hr, Bool.false_eq_true, if_false]
    unfold s16
    omega
  refine ⟨hm.1, hs.1, hm.2, hs.2, he, ?_, ?_⟩ <;>
  · rw [he]
    omega

/-- Witness of C19 on the concrete tables: two synth oscillators at full amplitude after one
call each. -/
theorem dry_pair_sum_no_overflow_witness :
    ExpBounded demoTables 8191
    ∧ nextOutSample demoTables
        { master := generateNextSample demoTables (initSynth demoTables zeroState false 128 0)
            0 2048 62914560,
          slave := generateNextSample demoTables (initSynth demoTables zeroState false 128 0)
            0 2048 62914560,
          ringModulated := false, mixed := false } ≤ 32764 :=
  ⟨demoTables_bounded.mono (by norm_num),
    (dry_pair_sum_no_overflow demoTables (demoTables_bounded.mono (by norm_num))
      { master := generateNextSample demoTables (initSynth demoTables zeroState false 128 0)
          0 2048 62914560,
        slave := generateNextSample demoTables (initSynth demoTables zeroState false 128 0)
          0 2048 62914560,
        ringModulated := false, mixed := false } rfl (by decide) (by decide)).2.2.2.2.2.2⟩

/-- C16. Segment resolution: with `exp9` non-decreasing with entries in `[0, 4095]`, for
every `wavePosition < 2^20`, `pulseWidth` in `0..255` and `cutoffVal <= 240 << 18`, with
`P = (wavePosition >> 8) * (resonanceWaveLengthFactor >> 4)` and the six segment lengths
`[2^18, highLinearLength, 2^18, 2^18, lowLinearLength, 2^18]`: `P` is strictly below the sum
of the six lengths; the phase selected by `computePositions` is the unique segment whose
half-open range (start = sum of the preceding lengths) contains `P`;
`squareWavePosition = P - start`, hence strictly below the length of the selected segment,
in particular below `2^18` in `NEGATIVE_RISING_SINE_SEGMENT`. -/
theorem segment_resolution (T : Tables) (hB : ExpBounded T 4095) (hM : ExpMonotone T)
    (st : LA32WaveGenerator) (hw : st.wavePosition < 1048576) (hpw : st.pulseWidth ≤ 255)
    (hc : st.cutoffVal ≤ MAX_CUTOFF_VALUE) :
    let ecv := effectiveCutoffValue st.cutoffVal
    let rwlf := getResonanceWaveLengthFactor T ecv
    let hll := getHighLinearLength T st.pulseWidth ecv
    let lll := lowLinearLength rwlf hll
    let P := (st.wavePosition / 256) * (rwlf / 16)
    let r := computePositions st hll lll rwlf
    P < 262144 + hll + 262144 + 262144 + lll + 262144
    ∧ segmentStart hll lll r.phase ≤ P
    ∧ P < segmentStart hll lll r.phase + segmentLength hll lll r.phase
    ∧ (∀ ph : Phase, segmentStart hll lll ph ≤ P →
        P < segmentStart hll lll ph + segmentLength hll lll ph → ph = r.phase)
    ∧ r.squareWavePosition = P - segmentStart hll lll r.phase
    ∧ r.squareWavePosition < segmentLength hll lll r.phase
    ∧ (r.phase = Phase.NEGATIVE_RISING_SINE_SEGMENT → r.squareWavePosition < 262144) := by
  intro ecv rwlf hll lll P r
  have he : ecv ≤ 28672 := effectiveCutoffValue_le st.cutoffVal hc
  have hL := linearLengths_exact hB hM st.pulseWidth ecv hpw he
  obtain ⟨-, -, -, -, -, h32, h4, hsum⟩ := hL
  have hsum' : hll + lll + 4 * 262144 = rwlf * 256 := hsum
  have h32' : rwlf * 256 < 4294967296 := h32
  have hP : P < rwlf * 256 := scaled_position_lt st.wavePosition rwlf hw (by omega)
  have hseg : segmentStart hll lll r.phase ≤ P
      ∧ P < segmentStart hll lll r.phase + segmentLength hll lll r.phase
      ∧ r.squareWavePosition = P - segmentStart hll lll r.phase :=
    computePositions_segment st hll lll rwlf (by omega) (by omega)
  clear_value r P lll hll rwlf ecv
  obtain ⟨h1, h2, h3⟩ := hseg
  refine ⟨by omega, h1, h2, ?_, h3, by omega, ?_⟩
  · intro ph k1 k2
    exact segment_unique hll lll P ph r.phase ⟨k1, k2⟩ ⟨h1, h2⟩
  · intro hph
    rw [hph] at h1 h2 h3
    simp only [segmentStart, segmentLength] at h1 h2 h3
    omega

/-- Witness of C16 on the concrete tables: pulse width 200 and cutoff `240 << 18` at
`wavePosition = 1048575`, the last position of the cycle, which resolves into
`NEGATIVE_RISING_SINE_SEGMENT`. -/
theorem segment_resolution_witness :
    (computePositions { zeroState with wavePosition := 1048575, pulseWidth := 200,
                                       cutoffVal := 62914560 }
      (getHighLinearLength demoTables 200 (effectiveCutoffValue 62914560))
      (lowLinearLength (getResonanceWaveLengthFactor demoTables (effectiveCutoffValue 62914560))
        (getHighLinearLength demoTables 200 (effectiveCutoffValue 62914560)))
      (getResonanceWaveLengthFactor demoTables (effectiveCutoffValue 62914560))).phase
      = Phase.NEGATIVE_RISING_SINE_SEGMENT
    ∧ (computePositions { zeroState with wavePosition := 1048575, pulseWidth := 200,
                                         cutoffVal := 62914560 }
      (getHighLinearLength demoTables 200 (effectiveCutoffValue 62914560))
      (lowLinearLength (getResonanceWaveLengthFactor demoTables (effectiveCutoffValue 62914560))
        (getHighLinearLength demoTables 200 (effectiveCutoffValue 62914560)))
      (getResonanceWaveLengthFactor demoTables (effectiveCutoffValue 62914560))).squareWavePosition
      < 262144 :=
  ⟨by decide,
    (segment_resolution demoTables demoTables_bounded demoTables_monotone
      { zeroState with wavePosition := 1048575, pulseWidth := 200, cutoffVal := 62914560 }
      (by decide) (by decide) (by decide)).2.2.2.2.2.2 (by decide)⟩

/-- C15. Periodicity of a synth oscillator under constant input: with every `exp9` entry in
`[0, 8191]`, for an oscillator freshly initialised by `initSynth` and driven with the same
`(amp, pitch, cutoffVal)` on every call, with `s = getSampleStep()`: after `n` calls
`wavePosition = (n * s) mod 2^20`; the whole state after call `k + 2^20 / gcd(s, 2^20)` equals
the state after call `k` for every `k >= 1`, so the emitted `(squareLogSample,
resonanceLogSample)` and the linear samples are periodic with that period from the first
sample on; and every emitted linear sample is `unlog(square) + unlog(resonance)`, of
magnitude at most `2 * 8191`. -/
theorem synth_periodicity (T : Tables) (hB : ExpBounded T 8191) (st0 : LA32WaveGenerator)
    (sw : Bool) (pw res amp pitch cutoffVal : Nat) :
    (∀ n : Nat,
      (runSamples T (initSynth T st0 sw pw res)
        (List.replicate n (amp, pitch, cutoffVal))).wavePosition
        = (n * getSampleStep T pitch) % 1048576)
    ∧ (∀ k : Nat, 1 ≤ k →
        runSamples T (initSynth T st0 sw pw res)
            (List.replicate (k + 1048576 / Nat.gcd (getSampleStep T pitch) 1048576)
              (amp, pitch, cutoffVal))
          = runSamples T (initSynth T st0 sw pw res)
              (List.replicate k (amp, pitch, cutoffVal)))
    ∧ (∀ k : Nat, 1 ≤ k →
        getOutputLogSample (runSamples T (initSynth T st0 sw pw res)
            (List.replicate (k + 1048576 / Nat.gcd (getSampleStep T pitch) 1048576)
              (amp, pitch, cutoffVal))) true
          = getOutputLogSample (runSamples T (initSynth T st0 sw pw res)
              (List.replicate k (amp, pitch, cutoffVal))) true
        ∧ getOutputLogSample (runSamples T (initSynth T st0 sw pw res)
            (List.replicate (k + 1048576 / Nat.gcd (getSampleStep T pitch) 1048576)
              (amp, pitch, cutoffVal))) false
          = getOutputLogSample (runSamples T (initSynth T st0 sw pw res)
              (List.replicate k (amp, pitch, cutoffVal))) false
        ∧ unlogAndMixWGOutput T (runSamples T (initSynth T st0 sw pw res)
            (List.replicate (k + 1048576 / Nat.gcd (getSampleStep T pitch) 1048576)
              (amp, pitch, cutoffVal))) none
          = unlogAndMixWGOutput T (runSamples T (initSynth T st0 sw pw res)
              (List.replicate k (amp, pitch, cutoffVal))) none)
    ∧ (∀ k : Nat,
        getOutputLogSample (runSamples T (initSynth T st0 sw pw res)
            (List.replicate k (amp, pitch, cutoffVal))) true
          = (runSamples T (initSynth T st0 sw pw res)
              (List.replicate k (amp, pitch, cutoffVal))).squareLogSample
        ∧ getOutputLogSample (runSamples T (initSynth T st0 sw pw res)
            (List.replicate k (amp, pitch, cutoffVal))) false
          = (runSamples T (initSynth T st0 sw pw res)
              (List.replicate k (amp, pitch, cutoffVal))).resonanceLogSample
        ∧ unlogAndMixWGOutput T (runSamples T (initSynth T st0 sw pw res)
            (List.replicate k (amp, pitch, cutoffVal))) none
          = unlog T (runSamples T (initSynth T st0 sw pw res)
                (List.replicate k (amp, pitch, cutoffVal))).squareLogSample
            + unlog T (runSamples T (initSynth T st0 sw pw res)
                (List.replicate k (amp, pitch, cutoffVal))).resonanceLogSample
        ∧ -(2 * 8191) ≤ unlog T (runSamples T (initSynth T st0 sw pw res)
                (List.replicate k (amp, pitch, cutoffVal))).squareLogSample
            + unlog T (runSamples T (initSynth T st0 sw pw res)
                (List.replicate k (amp, pitch, cutoffVal))).resonanceLogSample
        ∧ unlog T (runSamples T (initSynth T st0 sw pw res)
                (List.replicate k (amp, pitch, cutoffVal))).squareLogSample
            + unlog T (runSamples T (initSynth T st0 sw pw res)
                (List.replicate k (amp, pitch, cutoffVal))).resonanceLogSample ≤ 2 * 8191) := by
  refine ⟨?_, ?_, ?_, ?_⟩
  · intro n
    exact (synth_run_inv T st0 sw pw res amp pitch cutoffVal n).2.2.2.1
  · intro k hk
    exact synth_run_periodic T st0 sw pw res amp pitch cutoffVal k hk
  · intro k hk
    rw [synth_run_periodic T st0 sw pw res amp pitch cutoffVal k hk]
    exact ⟨rfl, rfl, rfl⟩
  · intro k
    obtain ⟨ha, hs, -, -, -⟩ := synth_run_inv T st0 sw pw res amp pitch cutoffVal k
    generalize runSamples T (initSynth T st0 sw pw res)
      (List.replicate k (amp, pitch, cutoffVal)) = S at ha hs
    have hout := getOutputLogSample_synth S ha hs
    have h1 := unlog_abs_le hB S.squareLogSample
    have h2 := unlog_abs_le hB S.resonanceLogSample
    refine ⟨hout.1, hout.2, ?_, by omega, by omega⟩
    rw [unlogAndMixWGOutput_synth T S ha hs]
    unfold s16
    omega

/-- Witness of C15 on the concrete tables, for the oscillator of the scenario
(`sawtoothWaveform = false`, `pulseWidth = 128`, `resonance = 0`, driven with `amp = 0`,
`pitch = 2048`, `cutoffVal = 0`): the step is positive and the state after the first call
recurs one period later. -/
theorem synth_periodicity_witness :
    ExpBounded demoTables 8191
    ∧ 0 < getSampleStep demoTables 2048
    ∧ runSamples demoTables (initSynth demoTables zeroState false 128 0)
          (List.replicate (1 + 1048576 / Nat.gcd (getSampleStep demoTables 2048) 1048576)
            (0, 2048, 0))
        = runSamples demoTables (initSynth demoTables zeroState false 128 0)
            (List.replicate 1 (0, 2048, 0)) :=
  ⟨demoTables_bounded.mono (by norm_num), by decide,
    (synth_periodicity demoTables (demoTables_bounded.mono (by norm_num)) zeroState false
      128 0 0 2048 0).2.1 1 (le_refl 1)⟩

end MT32Emu
